import Mathlib

/-!
Verification development for the 3-stage LLM Council orchestration pipeline
(`backend/council.py` with configuration `backend/config.py`).

Text is modelled as `List Char` (Python `str`).  The external network client
(`backend/openrouter.py`, the "ModelInvoker" collaborator of the spec) is
modelled as an oracle parameter `Oracle`: given a model identifier and a
message list it returns `none` (failure) or a response whose `content` field
may itself be absent (the code defensively uses `response.get("content", ...)`).

Every definition in the `Council` namespace is a direct translation of the
corresponding Python function.
-/

namespace Council

/-- Python strings are modelled as lists of characters. -/
abbrev Str := List Char

/-- Convenience: build a `Str` from a Lean string literal. -/
def str (s : String) : Str := s.data

/-- Character class of the regex `[A-Z]`: code points 65..90. -/
def isUpper (c : Char) : Bool := 65 ≤ c.toNat && c.toNat ≤ 90

/-- Inclusive code-point ranges of the characters matched by the regex class
`\d` on a Python `str` pattern: CPython's `re` module matches every Unicode
decimal digit (category `Nd`), e.g. also `٢` (U+0662), not only `0`..`9`. -/
def digitRanges : List (Nat × Nat) :=
  [(48, 57), (1632, 1641), (1776, 1785), (1984, 1993), (2406, 2415), (2534, 2543),
   (2662, 2671), (2790, 2799), (2918, 2927), (3046, 3055), (3174, 3183), (3302, 3311),
   (3430, 3439), (3558, 3567), (3664, 3673), (3792, 3801), (3872, 3881), (4160, 4169),
   (4240, 4249), (6112, 6121), (6160, 6169), (6470, 6479), (6608, 6617), (6784, 6793),
   (6800, 6809), (6992, 7001), (7088, 7097), (7232, 7241), (7248, 7257), (42528, 42537),
   (43216, 43225), (43264, 43273), (43472, 43481), (43504, 43513), (43600, 43609), (44016, 44025),
   (65296, 65305), (66720, 66729), (68912, 68921), (69734, 69743), (69872, 69881), (69942, 69951),
   (70096, 70105), (70384, 70393), (70736, 70745), (70864, 70873), (71248, 71257), (71360, 71369),
   (71472, 71481), (71904, 71913), (72016, 72025), (72784, 72793), (73040, 73049), (73120, 73129),
   (92768, 92777), (92864, 92873), (93008, 93017), (120782, 120831), (123200, 123209), (123632, 123641),
   (125264, 125273), (130032, 130041)]

/-- Character class of the regex `\d` on a Python `str` pattern: the Unicode
decimal digits. -/
def isDigit (c : Char) : Bool := digitRanges.any (fun r => r.1 ≤ c.toNat && c.toNat ≤ r.2)

/-- Inclusive code-point ranges of the characters matched by the regex class
`\s` on a Python `str` pattern, which coincide with the characters for which
`str.isspace()` holds (and which a bare `str.strip()` removes): the six ASCII
whitespace characters plus `\x1c`..`\x1f`, `\x85` (NEL), `\xa0` (NBSP) and the
Unicode space separators OGHAM SPACE MARK, EN QUAD..HAIR SPACE, LINE SEPARATOR,
PARAGRAPH SEPARATOR, NARROW NO-BREAK SPACE, MEDIUM MATHEMATICAL SPACE and
IDEOGRAPHIC SPACE. -/
def spaceRanges : List (Nat × Nat) :=
  [(9, 13), (28, 32), (133, 133), (160, 160), (5760, 5760), (8192, 8202),
   (8232, 8233), (8239, 8239), (8287, 8287), (12288, 12288)]

/-- Character class of the regex `\s` on a Python `str` pattern; also the
character set stripped by a bare `str.strip()`. -/
def isPySpace (c : Char) : Bool := spaceRanges.any (fun r => r.1 ≤ c.toNat && c.toNat ≤ r.2)

/-- The literal marker `"FINAL RANKING:"` searched by `parse_ranking_from_text`. -/
def MARKER : Str := str "FINAL RANKING:"

/-- First occurrence of `marker` in `text`: returns `(before, after)`, the text
strictly before the occurrence and the text strictly after it.  `none` when
`marker` does not occur (Python `marker in text` is false). -/
def splitAtSub (marker : Str) : Str → Option (Str × Str)
  | [] => none
  | c :: rest =>
    if marker.isPrefixOf (c :: rest) then some ([], (c :: rest).drop marker.length)
    else
      match splitAtSub marker rest with
      | some (pre, post) => some (c :: pre, post)
      | none => none

/-- One anchored attempt of the regex `Response [A-Z]` at the start of `text`:
the literal `"Response "` (9 characters) followed by an uppercase letter.
Returns the 10-character match. -/
def bareAt (text : Str) : Option Str :=
  if (str "Response ").isPrefixOf text then
    match text.drop 9 with
    | c :: _ => if isUpper c then some (str "Response " ++ [c]) else none
    | [] => none
  else none

/-- Scanner for `re.findall(r"Response [A-Z]", text)`: left-to-right scan
collecting non-overlapping matches.  After a match (of length 10) the scan
resumes right after it; `skip` counts remaining characters of the current
match still to be stepped over, so the recursion is structural on the text. -/
def findBareAux : Nat → Str → List Str
  | _, [] => []
  | 0, c :: rest =>
    match bareAt (c :: rest) with
    | some m => m :: findBareAux 9 rest
    | none => findBareAux 0 rest
  | skip + 1, _ :: rest => findBareAux skip rest

/-- `re.findall(r"Response [A-Z]", text)`. -/
def findBare (text : Str) : List Str := findBareAux 0 text

/-- One anchored attempt of the regex `\d+\.\s*Response [A-Z]` at the start of
`text`.  The greedy quantifiers `\d+` and `\s*` are maximal-munch here, which
agrees with backtracking since `.` is not a digit and `R` is not whitespace.
Returns the whole match and the remainder of the text after it. -/
def numberedAt (text : Str) : Option (Str × Str) :=
  let digits := text.takeWhile isDigit
  if digits.isEmpty then none
  else
    match text.dropWhile isDigit with
    | '.' :: r2 =>
      let ws := r2.takeWhile isPySpace
      let r3 := r2.dropWhile isPySpace
      if (str "Response ").isPrefixOf r3 then
        match r3.drop 9 with
        | c :: r4 =>
          if isUpper c then
            some (digits ++ '.' :: (ws ++ (str "Response " ++ [c])), r4)
          else none
        | [] => none
      else none
    | _ => none

/-- Scanner for `re.findall(r"\d+\.\s*Response [A-Z]", text)`: left-to-right
scan collecting non-overlapping matches; after a match `m` the scan resumes
right after it (`numberedAt` guarantees `text = m ++ remainder`), stepping over
the remaining `m.length - 1` characters structurally. -/
def findNumberedAux : Nat → Str → List Str
  | _, [] => []
  | 0, c :: rest =>
    match numberedAt (c :: rest) with
    | some (m, _) => m :: findNumberedAux (m.length - 1) rest
    | none => findNumberedAux 0 rest
  | skip + 1, _ :: rest => findNumberedAux skip rest

/-- `re.findall(r"\d+\.\s*Response [A-Z]", text)`. -/
def findNumbered (text : Str) : List Str := findNumberedAux 0 text

/-- The Python code takes `parts = ranking_text.split("FINAL RANKING:")` and
uses `parts[1]`: the text strictly between the first occurrence of the marker
and the next non-overlapping occurrence, or everything after the first
occurrence when it occurs only once.  `afterFirst` is the text after the first
occurrence. -/
def ranking_section_of (afterFirst : Str) : Str :=
  match splitAtSub MARKER afterFirst with
  | some p => p.1
  | none => afterFirst

/-- The numbered branch of the parser: for each match `m` of the numbered
pattern, `re.search(r"Response [A-Z]", m)` extracts the first bare
`"Response <Letter>"` occurrence in `m` (the head of `findBare m`); matches
where the search fails are skipped (`if match:`). -/
def numberedTokens (ranking_section : Str) : List Str :=
  (findNumbered ranking_section).filterMap (fun m => (findBare m).head?)

/-- `parse_ranking_from_text` (council.py lines 252-288). -/
def parse_ranking_from_text (ranking_text : Str) : List Str :=
  match splitAtSub MARKER ranking_text with
  | some p =>
    let ranking_section := ranking_section_of p.2
    let numbered_matches := findNumbered ranking_section
    if numbered_matches.isEmpty then findBare ranking_section
    else numberedTokens ranking_section
  | none => findBare ranking_text

end Council

namespace Council

/-- A conversation message (Python dict `{"role": ..., "content": ...}`). -/
structure Message where
  role : Str
  content : Str
deriving DecidableEq

/-- A successful result of a single model call: a dict whose `"content"` key
may be absent (the code always reads it with `response.get("content", ...)`). -/
structure ModelResponse where
  content : Option Str
deriving DecidableEq

/-- The external ModelInvoker (`query_model` from `backend/openrouter.py`,
outside the verified core): given a model identifier and a message list it
returns `none` on failure or a `ModelResponse` on success. -/
abbrev Oracle := Str → List Message → Option ModelResponse

/-- One Stage-1 result: `{"model": ..., "response": ...}`. -/
structure Stage1Result where
  model : Str
  response : Str
deriving DecidableEq

/-- One Stage-2 result: `{"model": ..., "ranking": ..., "parsed_ranking": ...}`. -/
structure Stage2Result where
  model : Str
  ranking : Str
  parsed_ranking : List Str
deriving DecidableEq

/-- The Stage-3 result: `{"model": ..., "response": ...}`. -/
structure Stage3Result where
  model : Str
  response : Str
deriving DecidableEq

/-- One aggregate entry: `{"model": ..., "average_rank": ..., "rankings_count": ...}`.
`average_rank` (a Python float obtained from exact division of small integers
followed by `round(_, 2)`) is modelled as a rational number. -/
structure AggregateEntry where
  model : Str
  average_rank : ℚ
  rankings_count : Nat
deriving DecidableEq

/-- Values of the metadata dict assembled by `run_full_council`. -/
inductive MetaVal where
  | labelMap : List (Str × Str) → MetaVal
  | aggRankings : List AggregateEntry → MetaVal
deriving DecidableEq

/-- The metadata dict: `{}` on the all-failed path, otherwise the two keys
`"label_to_model"` and `"aggregate_rankings"`. -/
abbrev Metadata := List (Str × MetaVal)

/-- A record of one individual model call issued by the pipeline:
`(model identifier, message list)`.  The full council run returns the list of
calls it made, in order, so that "stage X is never invoked" is expressible. -/
abbrev Call := Str × List Message

/-- `COUNCIL_MODELS` from `backend/config.py`. -/
def COUNCIL_MODELS : List Str :=
  [str "allenai/olmo-3.1-32b-think:free",
   str "nvidia/nemotron-3-nano-30b-a3b:free",
   str "qwen/qwen3-coder:free"]

/-- `CHAIRMAN_MODEL` from `backend/config.py`. -/
def CHAIRMAN_MODEL : Str := str "xiaomi/mimo-v2-flash:free"

/-- The `SPECIAL_ROLES` dict of `stage1_collect_responses`: a per-model system
preamble. -/
def SPECIAL_ROLES : List (Str × Message) :=
  [(str "qwen/qwen3-coder:free",
    ⟨str "system",
     str "You are a specialized Calculation and Analysis Agent. Your primary role is to provide precise mathematical calculations, data analysis, logical reasoning, and code-based solutions. Focus on accuracy, step-by-step breakdowns, and quantitative insights. When answering questions, prioritize numerical analysis, formulas, algorithms, and structured analytical approaches."⟩)]

/-- The message sequence Stage 1 sends to one council model:
`[optional special system preamble] + conversation_history + [user message]`. -/
def stage1_messages (model : Str) (user_query : Str)
    (conversation_history : List Message) : List Message :=
  (match SPECIAL_ROLES.lookup model with
   | some msg => [msg]
   | none => []) ++ conversation_history ++ [⟨str "user", user_query⟩]

/-- Insertion of one key/value pair into a Python dict modelled as an
association list: an existing key keeps its position and gets the new value,
a new key is appended at the end. -/
def dictInsert (d : List (Str × α)) (k : Str) (v : α) : List (Str × α) :=
  if d.any (fun p => p.1 == k) then
    d.map (fun p => if p.1 == k then (k, v) else p)
  else d ++ [(k, v)]

/-- A Python dict built from a sequence of key/value pairs (dict comprehension
or dict literal): left-to-right insertion. -/
def buildDict (l : List (Str × α)) : List (Str × α) :=
  l.foldl (fun d p => dictInsert d p.1 p.2) []

/-- `stage1_collect_responses` (council.py lines 8-61).  The tasks are built in
council-list order; `asyncio.gather` returns the results in task order
regardless of completion order, and the `responses` dict is keyed by model.
Returns the Stage-1 results together with the calls issued. -/
def stage1_collect_responses (oracle : Oracle) (councilModels : List Str)
    (user_query : Str) (conversation_history : List Message) :
    List Stage1Result × List Call :=
  let tasks : List Call :=
    councilModels.map (fun model => (model, stage1_messages model user_query conversation_history))
  let responses : List (Str × Option ModelResponse) :=
    buildDict (tasks.map (fun task => (task.1, oracle task.1 task.2)))
  let stage1_results :=
    responses.filterMap (fun p =>
      (p.2).map (fun response => ⟨p.1, response.content.getD []⟩ : ModelResponse → Stage1Result))
  (stage1_results, tasks)

end Council

namespace Council

/-- The anonymized labels: `[chr(65 + i) for i in range(len(stage1_results))]`.
Python `chr` is `Char.ofNat` on every code point Python accepts. -/
def labels (n : Nat) : List Char := (List.range n).map (fun i => Char.ofNat (65 + i))

/-- The label string assigned to the `i`-th Stage-1 entry: `f"Response {chr(65+i)}"`. -/
def labelStrOf (i : Nat) : Str := str "Response " ++ [Char.ofNat (65 + i)]

/-- The `label_to_model` dict comprehension of `stage2_collect_rankings`
(council.py lines 86-89).  Its keys are pairwise distinct for every size Python
supports, so the dict is this association list. -/
def label_to_model (stage1_results : List Stage1Result) : List (Str × Str) :=
  ((labels stage1_results.length).zip stage1_results).map
    (fun p => (str "Response " ++ [p.1], p.2.model))

/-- Python `str.title()` for the ASCII role names used here: a letter directly
after a letter is lowercased, any other letter is uppercased. -/
def pyTitleGo : Bool → Str → Str
  | _, [] => []
  | prevAlpha, c :: rest =>
    (if prevAlpha then c.toLower else c.toUpper) :: pyTitleGo c.isAlpha rest

/-- Python `str.title()`. -/
def pyTitle (l : Str) : Str := pyTitleGo false l

/-- The `context_text` block shared by Stage 2 and Stage 3: empty for an empty
history, otherwise a role-titled transcript. -/
def context_text (conversation_history : List Message) : Str :=
  if conversation_history.isEmpty then []
  else
    str "\n\nPrevious conversation:\n" ++
      (List.intercalate (str "\n")
        (conversation_history.map (fun msg => pyTitle msg.role ++ str ": " ++ msg.content)))

/-- The `responses_text` block of the ranking prompt: each response body
prefixed by its anonymized label, joined by blank lines. -/
def responses_text (stage1_results : List Stage1Result) : Str :=
  List.intercalate (str "\n\n")
    (((labels stage1_results.length).zip stage1_results).map
      (fun p => str "Response " ++ [p.1] ++ str ":\n" ++ p.2.response))

/-- The ranking prompt of `stage2_collect_rankings` (council.py lines 106-136). -/
def build_ranking_prompt (user_query : Str) (stage1_results : List Stage1Result)
    (conversation_history : List Message) : Str :=
  str "You are evaluating different responses to the following question:\n" ++
  context_text conversation_history ++
  str "\n\nCurrent Question: " ++ user_query ++
  str "\n\nHere are the responses from different models (anonymized):\n\n" ++
  responses_text stage1_results ++
  str "\n\nYour task:\n1. First, evaluate each response individually. For each response, explain what it does well and what it does poorly.\n2. Then, at the very end of your response, provide a final ranking.\n\nIMPORTANT: Your final ranking MUST be formatted EXACTLY as follows:\n- Start with the line \"FINAL RANKING:\" (all caps, with colon)\n- Then list the responses from best to worst as a numbered list\n- Each line should be: number, period, space, then ONLY the response label (e.g., \"1. Response A\")\n- Do not add any other text or explanations in the ranking section\n\nExample of the correct format for your ENTIRE response:\n\nResponse A provides good detail on X but misses Y...\nResponse B is accurate but lacks depth on Z...\nResponse C offers the most comprehensive answer...\n\nFINAL RANKING:\n1. Response C\n2. Response A\n3. Response B\n\nNow provide your evaluation and ranking:"

/-- Modelled from the spec: `query_models_parallel` lives in
`backend/openrouter.py`, outside the verified core.  Per the ModelInvoker
contract (spec section 6) its batch form sends the same messages to every
listed model concurrently and returns a mapping from model identifier to
response-or-failure, joined by request identity; it is modelled as one oracle
call per model, in list order. -/
def query_models_parallel (oracle : Oracle) (models : List Str)
    (messages : List Message) : List (Str × Option ModelResponse) :=
  models.map (fun model => (model, oracle model messages))

/-- `stage2_collect_rankings` (council.py lines 64-153).  Returns
`((stage2_results, label_to_model), calls issued)`. -/
def stage2_collect_rankings (oracle : Oracle) (councilModels : List Str)
    (user_query : Str) (stage1_results : List Stage1Result)
    (conversation_history : List Message) :
    (List Stage2Result × List (Str × Str)) × List Call :=
  let ranking_prompt := build_ranking_prompt user_query stage1_results conversation_history
  let messages : List Message := [⟨str "user", ranking_prompt⟩]
  let responses := query_models_parallel oracle councilModels messages
  let stage2_results :=
    responses.filterMap (fun p =>
      (p.2).map (fun response =>
        let full_text := response.content.getD []
        (⟨p.1, full_text, parse_ranking_from_text full_text⟩ : Stage2Result)))
  ((stage2_results, label_to_model stage1_results),
   councilModels.map (fun model => (model, messages)))

/-- The `stage1_text` block of the chairman prompt: every (model, response)
pair from Stage 1 with real model identifiers disclosed. -/
def stage1_text (stage1_results : List Stage1Result) : Str :=
  List.intercalate (str "\n\n")
    (stage1_results.map (fun result =>
      str "Model: " ++ result.model ++ str "\nResponse: " ++ result.response))

/-- The `stage2_text` block of the chairman prompt: every (model, raw ranking)
pair from Stage 2. -/
def stage2_text (stage2_results : List Stage2Result) : Str :=
  List.intercalate (str "\n\n")
    (stage2_results.map (fun result =>
      str "Model: " ++ result.model ++ str "\nRanking: " ++ result.ranking))

/-- The chairman prompt of `stage3_synthesize_final` (council.py lines 198-235). -/
def build_chairman_prompt (user_query : Str) (stage1_results : List Stage1Result)
    (stage2_results : List Stage2Result) (conversation_history : List Message) : Str :=
  str "You are the Chairman of an LLM Council. Multiple AI models have provided responses to a user\x27s question, and then ranked each other\x27s responses.\n" ++
  context_text conversation_history ++
  str "\n\nCurrent Question: " ++ user_query ++
  str "\n\nSTAGE 1 - Individual Responses:\n" ++ stage1_text stage1_results ++
  str "\n\nSTAGE 2 - Peer Rankings:\n" ++ stage2_text stage2_results ++
  str "\n\nYour task as Chairman is to provide the FINAL DECISION for the user\x27s question, not merely a summary. Follow this approach:\n\n1. CRITICALLY EVALUATE each individual response:\n   - Identify strengths: accuracy, completeness, clarity, evidence provided\n   - Identify weaknesses: omissions, errors, poor reasoning, hallucinations\n   - Be specific and objective in your criticism\n\n2. JUDGE THE QUALITY of responses:\n   - Which responses are best? Why? Cite specific reasons.\n   - Which responses are worst? Why? Be direct.\n   - Compare responses directly against each other\n\n3. PROVIDE YOUR OWN INDEPENDENT ASSESSMENT:\n   - Do not simply parrot the peer rankings\n   - Give your own judgment based on your critical evaluation\n   - If you disagree with the peer rankings, explain why\n   - Highlight insights that peers may have missed\n\n4. DELIVER A FINAL DECISION:\n   - Synthesize the best insights from all responses\n   - Correct any errors in lower-ranked responses\n   - Provide your own authoritative answer to the user\x27s question\n   - Be decisive and clear\n\nYour goal is to be a CRITICAL THINKER and ACTIVE JUDGE, not a passive summarizer. The user relies on you to provide the most accurate, well-reasoned answer possible.\n\nProvide your final answer now:"

/-- The single-element message list sent to the chairman. -/
def stage3_messages (user_query : Str) (stage1_results : List Stage1Result)
    (stage2_results : List Stage2Result) (conversation_history : List Message) :
    List Message :=
  [⟨str "user", build_chairman_prompt user_query stage1_results stage2_results conversation_history⟩]

/-- `stage3_synthesize_final` (council.py lines 156-249).  Returns the Stage-3
result together with the single chairman call issued. -/
def stage3_synthesize_final (oracle : Oracle) (user_query : Str)
    (stage1_results : List Stage1Result) (stage2_results : List Stage2Result)
    (conversation_history : List Message) : Stage3Result × List Call :=
  let messages := stage3_messages user_query stage1_results stage2_results conversation_history
  match oracle CHAIRMAN_MODEL messages with
  | none =>
    (⟨CHAIRMAN_MODEL, str "Error: Unable to generate final synthesis."⟩, [(CHAIRMAN_MODEL, messages)])
  | some response =>
    (⟨CHAIRMAN_MODEL, response.content.getD []⟩, [(CHAIRMAN_MODEL, messages)])

end Council

namespace Council

/-- Round a rational to the nearest integer, ties to even (the rounding used
both by IEEE-754 binary arithmetic and by Python `round`). -/
def roundHalfEven (q : ℚ) : ℤ :=
  let f := ⌊q⌋
  let r := q - f
  if r < 1/2 then f
  else if 1/2 < r then f + 1
  else if f % 2 = 0 then f else f + 1

/-- `⌊log₂ q⌋` for a positive rational: the floor logs of numerator and
denominator give a candidate within one of the true value, corrected by
comparing against the adjacent powers of two. -/
def floorLog2Q (q : ℚ) : ℤ :=
  let k : ℤ := (Nat.log2 q.num.toNat : ℤ) - (Nat.log2 q.den : ℤ)
  if (2 : ℚ) ^ (k + 1) ≤ q then k + 1
  else if (2 : ℚ) ^ k ≤ q then k
  else k - 1

/-- The exact value of the IEEE-754 binary64 double nearest to `q` (ties to
even mantissa).  A positive normal double is `m / 2 ^ (52 - e)` with
`e = ⌊log₂ q⌋` and a 53-bit integer mantissa `m`, so rounding `q` to the
nearest double is rounding `q * 2 ^ (52 - e)` to the nearest integer with ties
to even; this is value-correct also when the mantissa rounds up into the next
binade.  Inputs `≤ 0` are returned unchanged, and the subnormal and overflow
regions are not modelled: every average of recorded positions lies in `[1, n]`
for `n` the longest parsed ranking, and the aggregation theorem carries an
explicit hypothesis keeping `n` far below the double overflow threshold
(Python raises `OverflowError` past it). -/
def roundToDouble (q : ℚ) : ℚ :=
  if q ≤ 0 then q
  else
    let scale : ℚ := (2 : ℚ) ^ ((52 : ℤ) - floorLog2Q q)
    (roundHalfEven (q * scale) : ℚ) / scale

/-- Python `round(x, 2)` on a float `x` (CPython `double_round`): the exact
value of the double `x` is written in decimal and rounded to 2 fractional
digits with ties to even (`_Py_dg_dtoa`, mode 3), and the resulting decimal is
converted back to the nearest double (`_Py_dg_strtod`).  On the double
`107 / 40 = 3011782250804019 / 2 ^ 50`, which lies just below `2.675`, this
gives `2.67` where rounding the exact rational `107 / 40` would give `2.68`. -/
def round2 (q : ℚ) : ℚ := roundToDouble ((roundHalfEven (q * 100) : ℚ) / 100)

/-- `model_positions[model_name].append(position)` on a `defaultdict(list)`
modelled as an association list in insertion order: the first entry with this
key gets the position appended, a missing key is created at the end. -/
def addPosition : List (Str × List Nat) → Str → Nat → List (Str × List Nat)
  | [], model, pos => [(model, [pos])]
  | (k, ps) :: rest, model, pos =>
    if k == model then (k, ps ++ [pos]) :: rest
    else (k, ps) :: addPosition rest model pos

/-- Python `enumerate(l, start=1)`. -/
def enum1 (l : List α) : List (Nat × α) := l.enum.map (fun p => (p.1 + 1, p.2))

/-- The inner loop of `calculate_aggregate_rankings` for one reviewer: walk the
parsed ranking with 1-based positions, resolve each label through
`label_to_model`, skip labels that are not keys, record positions. -/
def recordReviewer (ltm : List (Str × Str)) (mp : List (Str × List Nat))
    (ranking : Stage2Result) : List (Str × List Nat) :=
  (enum1 (parse_ranking_from_text ranking.ranking)).foldl
    (fun mp pl =>
      match ltm.lookup pl.2 with
      | some model_name => addPosition mp model_name pl.1
      | none => mp) mp

/-- Stable insertion of an entry into a list sorted by `average_rank`:
an entry goes after every entry with a smaller-or-equal key. -/
def insertByRank (e : AggregateEntry) : List AggregateEntry → List AggregateEntry
  | [] => [e]
  | x :: xs => if e.average_rank < x.average_rank then e :: x :: xs else x :: insertByRank e xs

/-- Python `list.sort(key=lambda x: x["average_rank"])`: stable ascending sort.
Any stable ascending sort computes the same list, so a stable insertion sort is
used. -/
def pySortByRank (l : List AggregateEntry) : List AggregateEntry :=
  l.foldl (fun acc e => insertByRank e acc) []

/-- `calculate_aggregate_rankings` (council.py lines 291-336).  Note that the
function re-parses each reviewer's raw `ranking` text rather than reading the
stored `parsed_ranking` field.  `sum(positions) / len(positions)` is Python
float division of two ints: the exact quotient rounded to the nearest double
(`roundToDouble`), then rounded to 2 decimal places by `round` (`round2`). -/
def calculate_aggregate_rankings (stage2_results : List Stage2Result)
    (ltm : List (Str × Str)) : List AggregateEntry :=
  let model_positions := stage2_results.foldl (recordReviewer ltm) []
  let aggregate := model_positions.filterMap (fun p =>
    if p.2.isEmpty then none
    else some (⟨p.1, round2 (roundToDouble ((p.2.sum : ℚ) / (p.2.length : ℚ))),
      p.2.length⟩ : AggregateEntry))
  pySortByRank aggregate

/-- Python `str.strip`-style trimming: drop characters satisfying `p` from both
ends. -/
def stripWhile (p : Char → Bool) (l : Str) : Str :=
  ((l.dropWhile p).reverse.dropWhile p).reverse

/-- Python `title.strip()` (no argument: whitespace). -/
def pyStrip (l : Str) : Str := stripWhile isPySpace l

/-- Python `title.strip("\"'")`: strip double and single quotes from both ends. -/
def stripQuotes (l : Str) : Str := stripWhile (fun c => c == '"' || c == '\x27') l

/-- The title prompt of `generate_conversation_title` (council.py lines 349-354). -/
def title_prompt (user_query : Str) : Str :=
  str "Generate a very short title (3-5 words maximum) that summarizes the following question.\nThe title should be concise and descriptive. Do not use quotes or punctuation in the title.\n\nQuestion: " ++
  user_query ++ str "\n\nTitle:"

/-- The single-element message list sent to the title model. -/
def titleMessages (user_query : Str) : List Message :=
  [⟨str "user", title_prompt user_query⟩]

/-- `generate_conversation_title` (council.py lines 339-374). -/
def generate_conversation_title (oracle : Oracle) (user_query : Str) : Str :=
  match oracle (str "google/gemini-2.5-flash") (titleMessages user_query) with
  | none => str "New Conversation"
  | some response =>
    let title := pyStrip (response.content.getD (str "New Conversation"))
    let title := stripQuotes title
    if 50 < title.length then title.take 47 ++ str "..." else title

/-- The complete output of one orchestrator invocation:
`(stage1_results, stage2_results, stage3_result, metadata)`. -/
abbrev CouncilRunResult :=
  List Stage1Result × List Stage2Result × Stage3Result × Metadata

/-- `run_full_council` (council.py lines 377-426), additionally returning the
list of all individual model calls issued during the run, in order. -/
def run_full_council (oracle : Oracle) (user_query : Str)
    (conversation_history : List Message) : CouncilRunResult × List Call :=
  let s1 := stage1_collect_responses oracle COUNCIL_MODELS user_query conversation_history
  let stage1_results := s1.1
  if stage1_results.isEmpty then
    (([], [],
      ⟨str "error", str "All models failed to respond. Please try again."⟩,
      ([] : Metadata)), s1.2)
  else
    let s2 := stage2_collect_rankings oracle COUNCIL_MODELS user_query stage1_results conversation_history
    let stage2_results := s2.1.1
    let ltm := s2.1.2
    let aggregate_rankings := calculate_aggregate_rankings stage2_results ltm
    let s3 := stage3_synthesize_final oracle user_query stage1_results stage2_results conversation_history
    ((stage1_results, stage2_results, s3.1,
      [(str "label_to_model", MetaVal.labelMap ltm),
       (str "aggregate_rankings", MetaVal.aggRankings aggregate_rankings)]),
     s1.2 ++ s2.2 ++ s3.2)

end Council

namespace Council

/-- Specification-side description of the positions one reviewer `r` records
for model `m`: walk the parse of the reviewer's raw ranking text assigning
1-based positions, keep the positions of the labels that resolve to `m`
through `ltm`, and skip labels that are not keys of `ltm`. -/
def reviewerPositionsFor (ltm : List (Str × Str)) (m : Str) (r : Stage2Result) : List Nat :=
  (enum1 (parse_ranking_from_text r.ranking)).filterMap
    (fun pl => if ltm.lookup pl.2 == some m then some pl.1 else none)

/-- Specification-side description of all positions recorded for model `m`
across all reviewers, in reviewer order. -/
def recordedPositions (stage2_results : List Stage2Result) (ltm : List (Str × Str))
    (m : Str) : List Nat :=
  (stage2_results.map (reviewerPositionsFor ltm m)).flatten

/-- Witness fixture: an invoker for which every call fails. -/
def oracleAllFail : Oracle := fun _ _ => none

/-- Witness fixture: an invoker for which only the chairman call fails. -/
def oracleNoChairman : Oracle := fun model _ =>
  if model == CHAIRMAN_MODEL then none else some ⟨some (str "hi")⟩

/-- Witness fixture: an invoker failing exactly on model `"beta"`. -/
def oracleNoBeta : Oracle := fun model _ =>
  if model == str "beta" then none else some ⟨some (str "hello")⟩

/-- Witness fixture: an invoker answering with a long quoted title. -/
def oracleLongTitle : Oracle := fun _ _ =>
  some ⟨some (str "  \"A very long title that definitely exceeds the fifty character limit imposed\"  ")⟩

/-- Witness fixture: an invoker answering with a short quoted title. -/
def oracleShortTitle : Oracle := fun _ _ => some ⟨some (str "\x27Hello\x27")⟩

/-- Witness fixture: an invoker answering with a response lacking a content
field. -/
def oracleNoContent : Oracle := fun _ _ => some ⟨none⟩

/-- Counterexample fixture: an invoker answering with empty content. -/
def oracleEmptyContent : Oracle := fun _ _ => some ⟨some []⟩

/-- Witness fixture: two Stage-1 results with distinct models. -/
def wStage1Two : List Stage1Result := [⟨str "m1", str "x"⟩, ⟨str "m2", str "y"⟩]

/-- Witness fixture: same responses as `wStage1Two` under different models. -/
def wStage1TwoAlt : List Stage1Result := [⟨str "n1", str "x"⟩, ⟨str "n2", str "y"⟩]

/-- Witness fixture: 27 Stage-1 results with pairwise distinct one-character
model identifiers. -/
def wStage1Big : List Stage1Result :=
  (List.range 27).map (fun i => (⟨[Char.ofNat (97 + i)], []⟩ : Stage1Result))

/-- Witness fixture: a single reviewer ranking `Response A` first. -/
def wStage2One : List Stage2Result :=
  [⟨str "rev", str "FINAL RANKING: 1. Response A", [str "Response A"]⟩]

end Council

namespace Council

theorem isPrefixOf_cons_cons (a b : Char) (as bs : Str) :
    (a :: as).isPrefixOf (b :: bs) = ((a == b) && as.isPrefixOf bs) := rfl

theorem isPrefixOf_eq_append : ∀ {p t : Str}, p.isPrefixOf t = true → t = p ++ t.drop p.length := by
  intro p
  induction p with
  | nil => intro t _; simp
  | cons a as ih =>
    intro t h
    cases t with
    | nil =>
      have : (a :: as).isPrefixOf ([] : Str) = false := rfl
      rw [this] at h; cases h
    | cons b bs =>
      rw [isPrefixOf_cons_cons, Bool.and_eq_true] at h
      obtain ⟨hab, htail⟩ := h
      cases eq_of_beq hab
      simp only [List.length_cons, List.drop_succ_cons, List.cons_append, List.cons.injEq,
        true_and]
      exact ih htail

theorem isPrefixOf_append_self : ∀ (p u : Str), p.isPrefixOf (p ++ u) = true := by
  intro p
  induction p with
  | nil => intro u; cases u <;> rfl
  | cons a as ih =>
    intro u
    rw [List.cons_append, isPrefixOf_cons_cons, ih u]
    simp

theorem respLen : (str "Response ").length = 9 := rfl

theorem respHead : str "Response " = 'R' :: str "esponse " := rfl

theorem bareAt_none_of_ne {x : Char} (hx : ¬x = 'R') (l : Str) : bareAt (x :: l) = none := by
  have hpre : (str "Response ").isPrefixOf (x :: l) = false := by
    rw [respHead, isPrefixOf_cons_cons]
    have : ('R' == x) = false := by
      cases hrx : ('R' == x)
      · rfl
      · exact absurd (eq_of_beq hrx).symm hx
    rw [this, Bool.false_and]
  rw [bareAt, hpre]
  simp

theorem bareAt_eq_some {t m : Str} (h : bareAt t = some m) :
    ∃ c u, isUpper c = true ∧ t = str "Response " ++ c :: u ∧ m = str "Response " ++ [c] := by
  rw [bareAt] at h
  split at h
  case isTrue hpre =>
    have ht := isPrefixOf_eq_append hpre
    rw [respLen] at ht
    split at h
    case h_1 c u hdrop =>
      split at h
      case isTrue hup =>
        refine ⟨c, u, hup, ?_, ?_⟩
        · rw [ht, hdrop]
        · exact (Option.some.injEq _ _ ▸ h).symm
      case isFalse => cases h
    case h_2 => cases h
  case isFalse => cases h

theorem bareAt_of_shape {c : Char} (hup : isUpper c = true) (u : Str) :
    bareAt (str "Response " ++ c :: u) = some (str "Response " ++ [c]) := by
  rw [bareAt, isPrefixOf_append_self]
  have hdrop : (str "Response " ++ c :: u).drop 9 = c :: u := by
    rw [← respLen, List.drop_left]
  simp [hdrop, hup]

end Council

namespace Council

theorem findBareAux_skip : ∀ (skip : Nat) (t : Str),
    findBareAux skip t = findBareAux 0 (t.drop skip) := by
  intro skip
  induction skip with
  | zero => intro t; rw [List.drop_zero]
  | succ k ih =>
    intro t
    cases t with
    | nil => rfl
    | cons x rest => rw [List.drop_succ_cons, ← ih rest]; rfl

theorem findBare_nil : findBare [] = [] := rfl

theorem findBare_cons_some {c : Char} {rest m : Str} (h : bareAt (c :: rest) = some m) :
    findBare (c :: rest) = m :: findBare (rest.drop 9) := by
  rw [show findBare (c :: rest) = (match bareAt (c :: rest) with
      | some m2 => m2 :: findBareAux 9 rest
      | none => findBareAux 0 rest) from rfl, h]
  exact congrArg (fun l => m :: l) (findBareAux_skip 9 rest)

theorem findBare_cons_none {c : Char} {rest : Str} (h : bareAt (c :: rest) = none) :
    findBare (c :: rest) = findBare rest := by
  rw [show findBare (c :: rest) = (match bareAt (c :: rest) with
      | some m2 => m2 :: findBareAux 9 rest
      | none => findBareAux 0 rest) from rfl, h]
  rfl

/-- Induction along the left-to-right scan of `findBare`. -/
theorem findBare_induction (motive : Str → Prop)
    (h1 : motive [])
    (h2 : ∀ c rest m, bareAt (c :: rest) = some m → motive (rest.drop 9) →
      motive (c :: rest))
    (h3 : ∀ c rest, bareAt (c :: rest) = none → motive rest → motive (c :: rest)) :
    ∀ l, motive l := by
  intro l
  generalize hlen : l.length = n
  induction n using Nat.strong_induction_on generalizing l with
  | _ n ih =>
    cases l with
    | nil => exact h1
    | cons c rest =>
      cases hb : bareAt (c :: rest) with
      | some m =>
        refine h2 c rest m hb (ih (rest.drop 9).length ?_ _ rfl)
        subst hlen; simp [List.length_drop]; omega
      | none =>
        refine h3 c rest hb (ih rest.length ?_ _ rfl)
        subst hlen; simp

theorem findBare_skip : ∀ (pre : Str), (∀ x ∈ pre, ¬x = 'R') →
    ∀ t : Str, findBare (pre ++ t) = findBare t := by
  intro pre
  induction pre with
  | nil => intro _ t; rfl
  | cons x xs ih =>
    intro h t
    rw [List.cons_append,
      findBare_cons_none (bareAt_none_of_ne (h x (by simp)) _),
      ih (fun y hy => h y (by simp [hy])) t]

theorem findBare_resp {c : Char} (hup : isUpper c = true) (u : Str) :
    findBare (str "Response " ++ c :: u) = (str "Response " ++ [c]) :: findBare u := by
  have hsplit : str "Response " ++ c :: u = 'R' :: (str "esponse " ++ c :: u) := by
    rw [respHead, List.cons_append]
  have hsome : bareAt ('R' :: (str "esponse " ++ c :: u)) = some (str "Response " ++ [c]) := by
    rw [← hsplit]; exact bareAt_of_shape hup u
  have hdrop : (str "esponse " ++ c :: u).drop 9 = u := by
    have : str "esponse " ++ c :: u = (str "esponse " ++ [c]) ++ u := by simp
    rw [this, show (9 : Nat) = (str "esponse " ++ [c]).length from rfl, List.drop_left]
  rw [hsplit, findBare_cons_some hsome, hdrop]

theorem findBare_shape (l : Str) : ∀ m ∈ findBare l, ∃ c, isUpper c = true ∧
    m = str "Response " ++ [c] := by
  induction l using findBare_induction with
  | h1 => intro m hm; rw [findBare_nil] at hm; cases hm
  | h2 c rest m' hsome ih =>
    intro m hm
    rw [findBare_cons_some hsome, List.mem_cons] at hm
    rcases hm with hm | hm
    · obtain ⟨cc, u, hup, _, hmeq⟩ := bareAt_eq_some hsome
      exact ⟨cc, hup, hm ▸ hmeq⟩
    · exact ih m hm
  | h3 c rest hnone ih =>
    intro m hm
    rw [findBare_cons_none hnone] at hm
    exact ih m hm

theorem bareAt_nil : bareAt ([] : Str) = none := by rfl

theorem findBare_eq_nil_all (l : Str) (h : findBare l = []) :
    ∀ i, bareAt (l.drop i) = none := by
  induction l using findBare_induction with
  | h1 => intro i; rw [List.drop_nil]; exact bareAt_nil
  | h2 c rest m' hsome ih =>
    rw [findBare_cons_some hsome] at h; cases h
  | h3 c rest hnone ih =>
    rw [findBare_cons_none hnone] at h
    intro i
    cases i with
    | zero => exact hnone
    | succ j => rw [List.drop_succ_cons]; exact ih h j

theorem findBare_ne_nil_of_pos {l : Str} (i : Nat) {m : Str}
    (h : bareAt (l.drop i) = some m) : findBare l ≠ [] := by
  intro hnil
  rw [findBare_eq_nil_all l hnil i] at h
  cases h

theorem exists_pos_of_findBare_ne_nil (l : Str) (h : findBare l ≠ []) :
    ∃ i m, bareAt (l.drop i) = some m := by
  induction l using findBare_induction with
  | h1 => rw [findBare_nil] at h; exact absurd rfl h
  | h2 c rest m' hsome ih => exact ⟨0, m', hsome⟩
  | h3 c rest hnone ih =>
    rw [findBare_cons_none hnone] at h
    obtain ⟨i, m, hp⟩ := ih h
    exact ⟨i + 1, m, by rw [List.drop_succ_cons]; exact hp⟩

theorem bareAt_append {t m : Str} (h : bareAt t = some m) (b : Str) :
    bareAt (t ++ b) = some m := by
  obtain ⟨c, u, hup, ht, hm⟩ := bareAt_eq_some h
  rw [ht, hm, List.append_assoc, List.cons_append]
  exact bareAt_of_shape hup (u ++ b)

theorem findBare_nil_infix {a s b : Str} (h : findBare (a ++ (s ++ b)) = []) :
    findBare s = [] := by
  by_contra hne
  obtain ⟨i, m, hp⟩ := exists_pos_of_findBare_ne_nil s hne
  have hlt : i < s.length := by
    by_contra hge
    rw [List.drop_eq_nil_of_le (Nat.le_of_not_lt hge), bareAt_nil] at hp
    cases hp
  have hsb : (s ++ b).drop i = s.drop i ++ b :=
    List.drop_append_of_le_length (Nat.le_of_lt hlt)
  have hp2 : bareAt ((a ++ (s ++ b)).drop (a.length + i)) = some m := by
    rw [List.drop_append, hsb]
    exact bareAt_append hp b
  rw [findBare_eq_nil_all _ h (a.length + i)] at hp2
  cases hp2

end Council

namespace Council

theorem isDigit_ne_R {c : Char} (h : isDigit c = true) : ¬c = 'R' := by
  intro he; subst he; exact absurd h (by decide)

theorem isPySpace_ne_R {c : Char} (h : isPySpace c = true) : ¬c = 'R' := by
  intro he; subst he; exact absurd h (by decide)

theorem numberedAt_eq_some {t m rem : Str} (h : numberedAt t = some (m, rem)) :
    ∃ d ws c, d ≠ [] ∧ (∀ x ∈ d, isDigit x = true) ∧ (∀ x ∈ ws, isPySpace x = true) ∧
      isUpper c = true ∧ m = d ++ '.' :: (ws ++ (str "Response " ++ [c])) ∧ t = m ++ rem := by
  simp only [numberedAt] at h
  split at h
  case isTrue => cases h
  case isFalse hne =>
    split at h
    case h_1 r2 hdrop =>
      split at h
      case isTrue hpre =>
        split at h
        case h_1 c r4 hdrop9 =>
          split at h
          case isTrue hup =>
            rw [Option.some.injEq, Prod.mk.injEq] at h
            obtain ⟨hm, hrem⟩ := h
            refine ⟨t.takeWhile isDigit, r2.takeWhile isPySpace, c, ?_, ?_, ?_, hup, hm.symm, ?_⟩
            · intro hnil; rw [hnil] at hne; exact hne rfl
            · intro x hx; exact List.mem_takeWhile_imp hx
            · intro x hx; exact List.mem_takeWhile_imp hx
            · have ht : t.takeWhile isDigit ++ t.dropWhile isDigit = t :=
                List.takeWhile_append_dropWhile isDigit t
              have hr2 : r2.takeWhile isPySpace ++ r2.dropWhile isPySpace = r2 :=
                List.takeWhile_append_dropWhile isPySpace r2
              have hr3 : r2.dropWhile isPySpace =
                  str "Response " ++ (r2.dropWhile isPySpace).drop 9 := by
                have := isPrefixOf_eq_append hpre
                rw [respLen] at this
                exact this
              have e2 : r2 = r2.takeWhile isPySpace ++ (str "Response " ++ (c :: r4)) := by
                conv_lhs => rw [← hr2]
                rw [hr3, hdrop9]
              subst hrem
              rw [← hm]
              conv_lhs => rw [← ht, hdrop, e2]
              simp
          case isFalse => cases h
        case h_2 => cases h
      case isFalse => cases h
    case h_2 => cases h

theorem numberedMatch_findBare {d ws : Str} {c : Char} (hd : ∀ x ∈ d, isDigit x = true)
    (hws : ∀ x ∈ ws, isPySpace x = true) (hup : isUpper c = true) :
    findBare (d ++ '.' :: (ws ++ (str "Response " ++ [c]))) = [str "Response " ++ [c]] := by
  have hsplit : d ++ '.' :: (ws ++ (str "Response " ++ [c])) =
      (d ++ '.' :: ws) ++ (str "Response " ++ c :: []) := by simp
  have hnr : ∀ x ∈ d ++ '.' :: ws, ¬x = 'R' := by
    intro x hx
    rw [List.mem_append, List.mem_cons] at hx
    rcases hx with hx | hx | hx
    · exact isDigit_ne_R (hd x hx)
    · subst hx; decide
    · exact isPySpace_ne_R (hws x hx)
  rw [hsplit, findBare_skip _ hnr, findBare_resp hup [], findBare_nil]

theorem numberedMatch_drop {d ws : Str} {c : Char} :
    (d ++ '.' :: (ws ++ (str "Response " ++ [c]))).drop
      ((d ++ '.' :: (ws ++ (str "Response " ++ [c]))).length - 10) =
      str "Response " ++ [c] := by
  have hsplit : d ++ '.' :: (ws ++ (str "Response " ++ [c])) =
      (d ++ '.' :: ws) ++ (str "Response " ++ [c]) := by simp
  rw [hsplit, List.length_append,
    show (str "Response " ++ [c]).length = 10 from by simp [respLen],
    Nat.add_sub_cancel, List.drop_left]

theorem findNumberedAux_skip : ∀ (skip : Nat) (t : Str),
    findNumberedAux skip t = findNumberedAux 0 (t.drop skip) := by
  intro skip
  induction skip with
  | zero => intro t; rw [List.drop_zero]
  | succ k ih =>
    intro t
    cases t with
    | nil => rfl
    | cons x rest => rw [List.drop_succ_cons, ← ih rest]; rfl

theorem findNumbered_nil : findNumbered [] = [] := rfl

theorem findNumbered_cons_some {c : Char} {rest m rem : Str}
    (h : numberedAt (c :: rest) = some (m, rem)) :
    findNumbered (c :: rest) = m :: findNumbered (rest.drop (m.length - 1)) := by
  rw [show findNumbered (c :: rest) = (match numberedAt (c :: rest) with
      | some (m2, _) => m2 :: findNumberedAux (m2.length - 1) rest
      | none => findNumberedAux 0 rest) from rfl, h]
  exact congrArg (fun l => m :: l) (findNumberedAux_skip (m.length - 1) rest)

theorem findNumbered_cons_none {c : Char} {rest : Str}
    (h : numberedAt (c :: rest) = none) :
    findNumbered (c :: rest) = findNumbered rest := by
  rw [show findNumbered (c :: rest) = (match numberedAt (c :: rest) with
      | some (m2, _) => m2 :: findNumberedAux (m2.length - 1) rest
      | none => findNumberedAux 0 rest) from rfl, h]
  rfl

/-- Induction along the left-to-right scan of `findNumbered`. -/
theorem findNumbered_induction (motive : Str → Prop)
    (h1 : motive [])
    (h2 : ∀ c rest m rem, numberedAt (c :: rest) = some (m, rem) →
      motive (rest.drop (m.length - 1)) → motive (c :: rest))
    (h3 : ∀ c rest, numberedAt (c :: rest) = none → motive rest → motive (c :: rest)) :
    ∀ l, motive l := by
  intro l
  generalize hlen : l.length = n
  induction n using Nat.strong_induction_on generalizing l with
  | _ n ih =>
    cases l with
    | nil => exact h1
    | cons c rest =>
      cases hb : numberedAt (c :: rest) with
      | some p =>
        refine h2 c rest p.1 p.2 (by rw [← hb]) (ih (rest.drop (p.1.length - 1)).length ?_ _ rfl)
        subst hlen; simp [List.length_drop]; omega
      | none =>
        refine h3 c rest hb (ih rest.length ?_ _ rfl)
        subst hlen; simp

theorem findNumbered_pos (l : Str) : ∀ m ∈ findNumbered l,
    ∃ i rem, numberedAt (l.drop i) = some (m, rem) := by
  induction l using findNumbered_induction with
  | h1 => intro m hm; rw [findNumbered_nil] at hm; cases hm
  | h2 c rest m' rem' hsome ih =>
    intro m hm
    rw [findNumbered_cons_some hsome, List.mem_cons] at hm
    rcases hm with hm | hm
    · exact ⟨0, rem', by rw [List.drop_zero]; exact hm ▸ hsome⟩
    · obtain ⟨i, rem, hp⟩ := ih m hm
      refine ⟨(m'.length - 1 + i) + 1, rem, ?_⟩
      rw [List.drop_succ_cons, ← List.drop_drop]
      exact hp
  | h3 c rest hnone ih =>
    intro m hm
    rw [findNumbered_cons_none hnone] at hm
    obtain ⟨i, rem, hp⟩ := ih m hm
    exact ⟨i + 1, rem, by rw [List.drop_succ_cons]; exact hp⟩

theorem numberedAt_bare_pos {t m rem : Str} (h : numberedAt t = some (m, rem)) :
    ∃ j m2, bareAt (t.drop j) = some m2 := by
  obtain ⟨d, ws, c, _, _, _, hup, hm, ht⟩ := numberedAt_eq_some h
  refine ⟨(d ++ '.' :: ws).length, str "Response " ++ [c], ?_⟩
  have hteq : t = (d ++ '.' :: ws) ++ (str "Response " ++ c :: rem) := by
    rw [ht, hm]; simp
  rw [hteq, List.drop_left]
  exact bareAt_of_shape hup rem

theorem findNumbered_nil_of_bare_nil {l : Str} (h : findBare l = []) :
    findNumbered l = [] := by
  cases hfn : findNumbered l with
  | nil => rfl
  | cons m rest2 =>
    have hm : m ∈ findNumbered l := by rw [hfn]; exact List.mem_cons_self m rest2
    obtain ⟨i, rem, hp⟩ := findNumbered_pos l m hm
    obtain ⟨j, m2, hb⟩ := numberedAt_bare_pos hp
    rw [List.drop_drop] at hb
    rw [findBare_eq_nil_all l h _] at hb
    cases hb

end Council

namespace Council

theorem splitAtSub_eq_append (marker : Str) :
    ∀ {t pre post : Str}, splitAtSub marker t = some (pre, post) →
      t = pre ++ marker ++ post := by
  intro t
  induction t with
  | nil => intro pre post h; cases h
  | cons c rest ih =>
    intro pre post h
    rw [splitAtSub] at h
    split at h
    case isTrue hpre =>
      rw [Option.some.injEq, Prod.mk.injEq] at h
      obtain ⟨h1, h2⟩ := h
      rw [← h1, ← h2, List.nil_append]
      exact isPrefixOf_eq_append hpre
    case isFalse =>
      split at h
      case h_1 p q hrec =>
        rw [Option.some.injEq, Prod.mk.injEq] at h
        obtain ⟨h1, h2⟩ := h
        rw [← h1, ← h2]
        have := ih hrec
        rw [List.cons_append, List.cons_append, ← this]
      case h_2 => cases h

theorem parse_of_no_marker {text : Str} (h : splitAtSub MARKER text = none) :
    parse_ranking_from_text text = findBare text := by
  simp only [parse_ranking_from_text, h]

theorem parse_of_marker {text pre rest : Str} (h : splitAtSub MARKER text = some (pre, rest)) :
    parse_ranking_from_text text =
      (if (findNumbered (ranking_section_of rest)).isEmpty then
        findBare (ranking_section_of rest)
      else numberedTokens (ranking_section_of rest)) := by
  simp only [parse_ranking_from_text, h]

theorem parse_shape (text : Str) : ∀ t ∈ parse_ranking_from_text text,
    ∃ c, isUpper c = true ∧ t = str "Response " ++ [c] := by
  intro t ht
  rcases hsp : splitAtSub MARKER text with _ | ⟨pre, rest⟩
  · rw [parse_of_no_marker hsp] at ht
    exact findBare_shape _ _ ht
  · rw [parse_of_marker hsp] at ht
    split at ht
    · exact findBare_shape _ _ ht
    · rw [numberedTokens, List.mem_filterMap] at ht
      obtain ⟨m, _, hhead⟩ := ht
      exact findBare_shape m t (List.mem_of_mem_head? (Option.mem_def.mpr hhead))

theorem filterMap_eq_map_on {α β : Type} (f : α → Option β) (g : α → β) :
    ∀ l : List α, (∀ x ∈ l, f x = some (g x)) → l.filterMap f = l.map g := by
  intro l
  induction l with
  | nil => intro _; rfl
  | cons a as ih =>
    intro h
    rw [List.filterMap_cons, h a (by simp), List.map_cons,
      ih (fun x hx => h x (by simp [hx]))]

theorem numberedTokens_eq_map (s : Str) :
    numberedTokens s = (findNumbered s).map (fun m => m.drop (m.length - 10)) := by
  rw [numberedTokens]
  apply filterMap_eq_map_on
  intro m hm
  obtain ⟨i, rem, hp⟩ := findNumbered_pos s m hm
  obtain ⟨d, ws, c, _, hd, hws, hup, hmeq, _⟩ := numberedAt_eq_some hp
  rw [hmeq, numberedMatch_findBare hd hws hup, numberedMatch_drop]
  rfl

end Council

namespace Council

/-- C1 (amended): for every input in which the marker `"FINAL RANKING:"` is
present, `parse_ranking_from_text` considers only the first split field after
the marker — the text strictly between the first occurrence of the marker and
its next non-overlapping occurrence (to the end of the text when the marker
occurs only once) — and when that field contains at least one match of the
numbered pattern, it returns exactly the `"Response <Letter>"` tokens (the
final 10 characters) of those matches in left-to-right order of first
appearance, preserving duplicates; every returned token has the shape
`"Response "` followed by a single uppercase letter. -/
theorem C1_parse_numbered_matches (text pre rest : Str)
    (hm : splitAtSub MARKER text = some (pre, rest))
    (hn : findNumbered (ranking_section_of rest) ≠ []) :
    parse_ranking_from_text text =
      (findNumbered (ranking_section_of rest)).map (fun m => m.drop (m.length - 10)) ∧
    ∀ t ∈ parse_ranking_from_text text, ∃ c, isUpper c = true ∧
      t = str "Response " ++ [c] := by
  constructor
  · rw [parse_of_marker hm, if_neg (by simpa using hn)]
    exact numberedTokens_eq_map _
  · exact parse_shape text

/-- Witness for C1: the spec's own example with leading prose; the marker
occurs once, `parts[1]` is everything after it, and the three numbered matches
produce the three tokens. -/
theorem C1_parse_numbered_matches_witness :
    splitAtSub MARKER (str "xx FINAL RANKING:\n1. Response C\n2. Response A\n3. Response B") =
      some (str "xx ", str "\n1. Response C\n2. Response A\n3. Response B") ∧
    findNumbered (ranking_section_of (str "\n1. Response C\n2. Response A\n3. Response B")) ≠ [] ∧
    (parse_ranking_from_text
        (str "xx FINAL RANKING:\n1. Response C\n2. Response A\n3. Response B") =
      (findNumbered (ranking_section_of (str "\n1. Response C\n2. Response A\n3. Response B"))).map
        (fun m => m.drop (m.length - 10)) ∧
     ∀ t ∈ parse_ranking_from_text
        (str "xx FINAL RANKING:\n1. Response C\n2. Response A\n3. Response B"),
       ∃ c, isUpper c = true ∧ t = str "Response " ++ [c]) :=
  ⟨by decide, by decide,
   C1_parse_numbered_matches
     (str "xx FINAL RANKING:\n1. Response C\n2. Response A\n3. Response B")
     (str "xx ") (str "\n1. Response C\n2. Response A\n3. Response B")
     (by decide) (by decide)⟩

/-- Counterexample to C1 as stated: when the marker occurs twice, the text
after the marker's first occurrence is `"FINAL RANKING:1. Response A"`, whose
numbered matches yield the token `"Response A"`; the claim therefore demands
`["Response A"]`, but the code inspects only `parts[1]` (the text between the
two occurrences, here empty) and returns `[]`. -/
theorem C1_counterexample :
    parse_ranking_from_text (str "FINAL RANKING:FINAL RANKING:1. Response A") = [] ∧
    splitAtSub MARKER (str "FINAL RANKING:FINAL RANKING:1. Response A") =
      some ([], str "FINAL RANKING:1. Response A") ∧
    (findNumbered (str "FINAL RANKING:1. Response A")).map
      (fun m => m.drop (m.length - 10)) = [str "Response A"] := by
  refine ⟨by decide, by decide, by decide⟩

/-- C7 (amended): `parse_ranking_from_text` is total; when the marker is
present but the split field after it (`parts[1]`, the text between the first
occurrence and the next, not the whole post-marker remainder) has no numbered
match, it returns every bare `"Response <Letter>"` occurrence of that field in
order; when the marker is absent it returns every bare occurrence of the whole
text in order; and when the whole text has no bare occurrence at all, it
returns the empty sequence. -/
theorem C7_parse_fallbacks (text : Str) :
    (splitAtSub MARKER text = none → parse_ranking_from_text text = findBare text) ∧
    (∀ pre rest, splitAtSub MARKER text = some (pre, rest) →
      findNumbered (ranking_section_of rest) = [] →
      parse_ranking_from_text text = findBare (ranking_section_of rest)) ∧
    (findBare text = [] → parse_ranking_from_text text = []) := by
  refine ⟨fun h => parse_of_no_marker h, fun pre rest h hn => ?_, fun hb => ?_⟩
  · rw [parse_of_marker h, if_pos (by rw [hn]; rfl)]
  · rcases hsp : splitAtSub MARKER text with _ | ⟨pre, rest⟩
    · rw [parse_of_no_marker hsp]; exact hb
    · have htext := splitAtSub_eq_append MARKER hsp
      have hsec : ∃ a b, text = a ++ (ranking_section_of rest ++ b) := by
        rcases hsp2 : splitAtSub MARKER rest with _ | ⟨p2, q2⟩
        · refine ⟨pre ++ MARKER, [], ?_⟩
          rw [show ranking_section_of rest = rest from by
            simp [ranking_section_of, hsp2]]
          rw [htext]; simp
        · refine ⟨pre ++ MARKER, MARKER ++ q2, ?_⟩
          rw [show ranking_section_of rest = p2 from by
            simp [ranking_section_of, hsp2]]
          rw [htext, splitAtSub_eq_append MARKER hsp2]; simp
      obtain ⟨a, b, hab⟩ := hsec
      have hsecnil : findBare (ranking_section_of rest) = [] := by
        apply findBare_nil_infix (a := a) (b := b)
        rw [← hab]; exact hb
      have hnum : findNumbered (ranking_section_of rest) = [] :=
        findNumbered_nil_of_bare_nil hsecnil
      rw [parse_of_marker hsp, if_pos (by rw [hnum]; rfl)]
      exact hsecnil

/-- Witness for C7: both fallbacks and the empty case, at concrete inputs. -/
theorem C7_parse_fallbacks_witness :
    (splitAtSub MARKER (str "no ranking info") = none ∧
     parse_ranking_from_text (str "no ranking info") = findBare (str "no ranking info")) ∧
    (findBare (str "no ranking info") = [] ∧
     parse_ranking_from_text (str "no ranking info") = []) ∧
    (splitAtSub MARKER (str "FINAL RANKING: Response A") = some ([], str " Response A") ∧
     findNumbered (ranking_section_of (str " Response A")) = [] ∧
     parse_ranking_from_text (str "FINAL RANKING: Response A") =
       findBare (ranking_section_of (str " Response A"))) :=
  ⟨⟨by decide, (C7_parse_fallbacks _).1 (by decide)⟩,
   ⟨by decide, (C7_parse_fallbacks _).2.2 (by decide)⟩,
   ⟨by decide, by decide,
    (C7_parse_fallbacks _).2.1 [] (str " Response A") (by decide) (by decide)⟩⟩

/-- Counterexample to C7 as stated: with the marker present twice and no
numbered match anywhere, the post-marker remainder `"FINAL RANKING:Response A"`
contains the bare occurrence `"Response A"`, so the claim demands
`["Response A"]`; the code inspects only `parts[1]` (empty here) and
returns `[]`. -/
theorem C7_counterexample :
    parse_ranking_from_text (str "FINAL RANKING:FINAL RANKING:Response A") = [] ∧
    splitAtSub MARKER (str "FINAL RANKING:FINAL RANKING:Response A") =
      some ([], str "FINAL RANKING:Response A") ∧
    findNumbered (str "FINAL RANKING:Response A") = [] ∧
    findBare (str "FINAL RANKING:Response A") = [str "Response A"] := by
  refine ⟨by decide, by decide, by decide, by decide⟩

end Council

namespace Council

theorem dictInsert_of_not_mem {α : Type} (acc : List (Str × α)) (k : Str) (v : α)
    (h : k ∉ acc.map Prod.fst) : dictInsert acc k v = acc ++ [(k, v)] := by
  rw [dictInsert, if_neg]
  intro hany
  rw [List.any_eq_true] at hany
  obtain ⟨q, hq, hqk⟩ := hany
  exact h (eq_of_beq hqk ▸ List.mem_map_of_mem Prod.fst hq)

theorem buildDict_go {α : Type} : ∀ (l acc : List (Str × α)),
    ((acc ++ l).map Prod.fst).Nodup →
    l.foldl (fun d p => dictInsert d p.1 p.2) acc = acc ++ l := by
  intro l
  induction l with
  | nil => intro acc _; simp
  | cons p ps ih =>
    intro acc hnd
    have hnotin : p.1 ∉ acc.map Prod.fst := by
      rw [List.map_append, List.nodup_append] at hnd
      intro hmem
      exact hnd.2.2 hmem (List.mem_map_of_mem Prod.fst (List.mem_cons_self p ps))
    rw [List.foldl_cons, dictInsert_of_not_mem acc p.1 p.2 hnotin]
    have hre : (acc ++ [(p.1, p.2)]) ++ ps = acc ++ p :: ps := by simp
    have hnd2 : (((acc ++ [(p.1, p.2)]) ++ ps).map Prod.fst).Nodup := by
      rw [hre]; exact hnd
    rw [ih (acc ++ [(p.1, p.2)]) hnd2, hre]

theorem buildDict_of_nodup {α : Type} (l : List (Str × α))
    (h : (l.map Prod.fst).Nodup) : buildDict l = l := by
  rw [buildDict, buildDict_go l [] (by simpa using h), List.nil_append]

/-- C5: for every invoker behaviour, Stage 1 returns exactly the council
models whose invocation succeeded, each paired with the content of its own
response, in council-list order; failed models are silently omitted and the
stage is total (no error path).  One call per council model is issued, with
that model's own message sequence, independently of which calls succeed. -/
theorem C5_stage1_results (oracle : Oracle) (councilModels : List Str)
    (user_query : Str) (conversation_history : List Message)
    (hnd : councilModels.Nodup) :
    (stage1_collect_responses oracle councilModels user_query conversation_history).1 =
      councilModels.filterMap (fun model =>
        (oracle model (stage1_messages model user_query conversation_history)).map
          (fun response => ⟨model, response.content.getD []⟩)) ∧
    (stage1_collect_responses oracle councilModels user_query conversation_history).2 =
      councilModels.map (fun model =>
        (model, stage1_messages model user_query conversation_history)) := by
  constructor
  · show (buildDict ((councilModels.map (fun model =>
        (model, stage1_messages model user_query conversation_history))).map
          (fun task => (task.1, oracle task.1 task.2)))).filterMap _ = _
    rw [List.map_map]
    have hkeys : (((councilModels.map (fun model =>
        (model, oracle model (stage1_messages model user_query conversation_history))))).map
          Prod.fst).Nodup := by
      rw [List.map_map,
        show (Prod.fst ∘ fun model => ((model, oracle model
            (stage1_messages model user_query conversation_history)) :
            Str × Option ModelResponse)) = id from funext (fun _ => rfl),
        List.map_id]
      exact hnd
    rw [show ((fun task => (task.1, oracle task.1 task.2)) ∘ (fun model =>
        ((model, stage1_messages model user_query conversation_history) : Call))) =
        (fun model => (model, oracle model
          (stage1_messages model user_query conversation_history))) from rfl]
    rw [buildDict_of_nodup _ hkeys, List.filterMap_map]
    rfl
  · rfl

/-- Witness for C5: a two-model council where exactly one model fails. -/
theorem C5_stage1_results_witness :
    ([str "alpha", str "beta"] : List Str).Nodup ∧
    ((stage1_collect_responses oracleNoBeta [str "alpha", str "beta"] (str "q") []).1 =
      ([str "alpha", str "beta"] : List Str).filterMap (fun model =>
        (oracleNoBeta model (stage1_messages model (str "q") [])).map
          (fun response => ⟨model, response.content.getD []⟩)) ∧
     (stage1_collect_responses oracleNoBeta [str "alpha", str "beta"] (str "q") []).2 =
      ([str "alpha", str "beta"] : List Str).map (fun model =>
        (model, stage1_messages model (str "q") []))) :=
  ⟨by decide, C5_stage1_results oracleNoBeta [str "alpha", str "beta"] (str "q") [] (by decide)⟩

/-- C3: when Stage 1 yields no successful response, the orchestrator returns
the sentinel (empty stage1, empty stage2, the fixed error Stage-3 dict, empty
metadata) and the only model calls of the whole run are the Stage-1 calls —
Stage 2, Stage 3 and every further model call are never invoked. -/
theorem C3_short_circuit (oracle : Oracle) (user_query : Str)
    (conversation_history : List Message)
    (h : (stage1_collect_responses oracle COUNCIL_MODELS user_query conversation_history).1 = []) :
    run_full_council oracle user_query conversation_history =
      (([], [],
        ⟨str "error", str "All models failed to respond. Please try again."⟩,
        ([] : Metadata)),
       (stage1_collect_responses oracle COUNCIL_MODELS user_query conversation_history).2) ∧
    (stage1_collect_responses oracle COUNCIL_MODELS user_query conversation_history).2 =
      COUNCIL_MODELS.map (fun model =>
        (model, stage1_messages model user_query conversation_history)) := by
  constructor
  · simp only [run_full_council, h]
    rfl
  · rfl

/-- Witness for C3: the invoker for which every call fails. -/
theorem C3_short_circuit_witness :
    (stage1_collect_responses oracleAllFail COUNCIL_MODELS (str "q") []).1 = [] ∧
    (run_full_council oracleAllFail (str "q") [] =
      (([], [],
        ⟨str "error", str "All models failed to respond. Please try again."⟩,
        ([] : Metadata)),
       (stage1_collect_responses oracleAllFail COUNCIL_MODELS (str "q") []).2) ∧
     (stage1_collect_responses oracleAllFail COUNCIL_MODELS (str "q") []).2 =
      COUNCIL_MODELS.map (fun model => (model, stage1_messages model (str "q") []))) :=
  ⟨by decide, C3_short_circuit oracleAllFail (str "q") [] (by decide)⟩

end Council

namespace Council

/-- C4: when Stage 1 produced at least one result and the chairman call fails,
Stage 3 does not raise and yields exactly the fixed error dict with the
chairman identifier, while the already-computed Stage-1 results, Stage-2
results and the metadata (label_to_model and aggregate_rankings) appear fully
populated and unchanged in the final council run result. -/
theorem C4_chairman_failure (oracle : Oracle) (user_query : Str)
    (conversation_history : List Message) (s1 : List Stage1Result) (calls1 : List Call)
    (s2 : List Stage2Result) (ltm : List (Str × Str)) (calls2 : List Call)
    (hs1 : stage1_collect_responses oracle COUNCIL_MODELS user_query conversation_history =
      (s1, calls1))
    (hs2 : stage2_collect_rankings oracle COUNCIL_MODELS user_query s1 conversation_history =
      ((s2, ltm), calls2))
    (hne : s1 ≠ [])
    (hfail : oracle CHAIRMAN_MODEL
      (stage3_messages user_query s1 s2 conversation_history) = none) :
    run_full_council oracle user_query conversation_history =
      ((s1, s2,
        ⟨CHAIRMAN_MODEL, str "Error: Unable to generate final synthesis."⟩,
        [(str "label_to_model", MetaVal.labelMap ltm),
         (str "aggregate_rankings",
          MetaVal.aggRankings (calculate_aggregate_rankings s2 ltm))]),
       calls1 ++ calls2 ++
         [(CHAIRMAN_MODEL, stage3_messages user_query s1 s2 conversation_history)]) := by
  have hempty : s1.isEmpty = false := by
    cases s1 with
    | nil => exact absurd rfl hne
    | cons a as => rfl
  simp only [run_full_council, hs1, hs2, hempty, Bool.false_eq_true, if_false,
    stage3_synthesize_final, hfail]

set_option maxRecDepth 40000 in
/-- Witness for C4: the invoker that answers every council call with `"hi"`
and fails exactly on the chairman. -/
theorem C4_chairman_failure_witness :
    stage1_collect_responses oracleNoChairman COUNCIL_MODELS (str "q") [] =
      ([⟨str "allenai/olmo-3.1-32b-think:free", str "hi"⟩,
        ⟨str "nvidia/nemotron-3-nano-30b-a3b:free", str "hi"⟩,
        ⟨str "qwen/qwen3-coder:free", str "hi"⟩],
       COUNCIL_MODELS.map (fun model => (model, stage1_messages model (str "q") []))) ∧
    stage2_collect_rankings oracleNoChairman COUNCIL_MODELS (str "q")
      [⟨str "allenai/olmo-3.1-32b-think:free", str "hi"⟩,
       ⟨str "nvidia/nemotron-3-nano-30b-a3b:free", str "hi"⟩,
       ⟨str "qwen/qwen3-coder:free", str "hi"⟩] [] =
      (([⟨str "allenai/olmo-3.1-32b-think:free", str "hi", []⟩,
         ⟨str "nvidia/nemotron-3-nano-30b-a3b:free", str "hi", []⟩,
         ⟨str "qwen/qwen3-coder:free", str "hi", []⟩],
        [(str "Response A", str "allenai/olmo-3.1-32b-think:free"),
         (str "Response B", str "nvidia/nemotron-3-nano-30b-a3b:free"),
         (str "Response C", str "qwen/qwen3-coder:free")]),
       COUNCIL_MODELS.map (fun model => (model,
         [⟨str "user", build_ranking_prompt (str "q")
           [⟨str "allenai/olmo-3.1-32b-think:free", str "hi"⟩,
            ⟨str "nvidia/nemotron-3-nano-30b-a3b:free", str "hi"⟩,
            ⟨str "qwen/qwen3-coder:free", str "hi"⟩] []⟩]))) ∧
    ([⟨str "allenai/olmo-3.1-32b-think:free", str "hi"⟩,
      ⟨str "nvidia/nemotron-3-nano-30b-a3b:free", str "hi"⟩,
      ⟨str "qwen/qwen3-coder:free", str "hi"⟩] : List Stage1Result) ≠ [] ∧
    oracleNoChairman CHAIRMAN_MODEL
      (stage3_messages (str "q")
        [⟨str "allenai/olmo-3.1-32b-think:free", str "hi"⟩,
         ⟨str "nvidia/nemotron-3-nano-30b-a3b:free", str "hi"⟩,
         ⟨str "qwen/qwen3-coder:free", str "hi"⟩]
        [⟨str "allenai/olmo-3.1-32b-think:free", str "hi", []⟩,
         ⟨str "nvidia/nemotron-3-nano-30b-a3b:free", str "hi", []⟩,
         ⟨str "qwen/qwen3-coder:free", str "hi", []⟩] []) = none ∧
    run_full_council oracleNoChairman (str "q") [] =
      (([⟨str "allenai/olmo-3.1-32b-think:free", str "hi"⟩,
         ⟨str "nvidia/nemotron-3-nano-30b-a3b:free", str "hi"⟩,
         ⟨str "qwen/qwen3-coder:free", str "hi"⟩],
        [⟨str "allenai/olmo-3.1-32b-think:free", str "hi", []⟩,
         ⟨str "nvidia/nemotron-3-nano-30b-a3b:free", str "hi", []⟩,
         ⟨str "qwen/qwen3-coder:free", str "hi", []⟩],
        ⟨CHAIRMAN_MODEL, str "Error: Unable to generate final synthesis."⟩,
        [(str "label_to_model", MetaVal.labelMap
          [(str "Response A", str "allenai/olmo-3.1-32b-think:free"),
           (str "Response B", str "nvidia/nemotron-3-nano-30b-a3b:free"),
           (str "Response C", str "qwen/qwen3-coder:free")]),
         (str "aggregate_rankings", MetaVal.aggRankings
          (calculate_aggregate_rankings
            [⟨str "allenai/olmo-3.1-32b-think:free", str "hi", []⟩,
             ⟨str "nvidia/nemotron-3-nano-30b-a3b:free", str "hi", []⟩,
             ⟨str "qwen/qwen3-coder:free", str "hi", []⟩]
            [(str "Response A", str "allenai/olmo-3.1-32b-think:free"),
             (str "Response B", str "nvidia/nemotron-3-nano-30b-a3b:free"),
             (str "Response C", str "qwen/qwen3-coder:free")]))]),
       COUNCIL_MODELS.map (fun model => (model, stage1_messages model (str "q") [])) ++
       COUNCIL_MODELS.map (fun model => (model,
         [⟨str "user", build_ranking_prompt (str "q")
           [⟨str "allenai/olmo-3.1-32b-think:free", str "hi"⟩,
            ⟨str "nvidia/nemotron-3-nano-30b-a3b:free", str "hi"⟩,
            ⟨str "qwen/qwen3-coder:free", str "hi"⟩] []⟩])) ++
       [(CHAIRMAN_MODEL, stage3_messages (str "q")
         [⟨str "allenai/olmo-3.1-32b-think:free", str "hi"⟩,
          ⟨str "nvidia/nemotron-3-nano-30b-a3b:free", str "hi"⟩,
          ⟨str "qwen/qwen3-coder:free", str "hi"⟩]
         [⟨str "allenai/olmo-3.1-32b-think:free", str "hi", []⟩,
          ⟨str "nvidia/nemotron-3-nano-30b-a3b:free", str "hi", []⟩,
          ⟨str "qwen/qwen3-coder:free", str "hi", []⟩] [])]) := by
  have h1 : stage1_collect_responses oracleNoChairman COUNCIL_MODELS (str "q") [] =
      ([⟨str "allenai/olmo-3.1-32b-think:free", str "hi"⟩,
        ⟨str "nvidia/nemotron-3-nano-30b-a3b:free", str "hi"⟩,
        ⟨str "qwen/qwen3-coder:free", str "hi"⟩],
       COUNCIL_MODELS.map (fun model => (model, stage1_messages model (str "q") []))) := by
    decide
  have h2 : stage2_collect_rankings oracleNoChairman COUNCIL_MODELS (str "q")
      [⟨str "allenai/olmo-3.1-32b-think:free", str "hi"⟩,
       ⟨str "nvidia/nemotron-3-nano-30b-a3b:free", str "hi"⟩,
       ⟨str "qwen/qwen3-coder:free", str "hi"⟩] [] =
      (([⟨str "allenai/olmo-3.1-32b-think:free", str "hi", []⟩,
         ⟨str "nvidia/nemotron-3-nano-30b-a3b:free", str "hi", []⟩,
         ⟨str "qwen/qwen3-coder:free", str "hi", []⟩],
        [(str "Response A", str "allenai/olmo-3.1-32b-think:free"),
         (str "Response B", str "nvidia/nemotron-3-nano-30b-a3b:free"),
         (str "Response C", str "qwen/qwen3-coder:free")]),
       COUNCIL_MODELS.map (fun model => (model,
         [⟨str "user", build_ranking_prompt (str "q")
           [⟨str "allenai/olmo-3.1-32b-think:free", str "hi"⟩,
            ⟨str "nvidia/nemotron-3-nano-30b-a3b:free", str "hi"⟩,
            ⟨str "qwen/qwen3-coder:free", str "hi"⟩] []⟩]))) := by
    decide
  have h3 : ([⟨str "allenai/olmo-3.1-32b-think:free", str "hi"⟩,
      ⟨str "nvidia/nemotron-3-nano-30b-a3b:free", str "hi"⟩,
      ⟨str "qwen/qwen3-coder:free", str "hi"⟩] : List Stage1Result) ≠ [] := by
    decide
  have h4 : oracleNoChairman CHAIRMAN_MODEL
      (stage3_messages (str "q")
        [⟨str "allenai/olmo-3.1-32b-think:free", str "hi"⟩,
         ⟨str "nvidia/nemotron-3-nano-30b-a3b:free", str "hi"⟩,
         ⟨str "qwen/qwen3-coder:free", str "hi"⟩]
        [⟨str "allenai/olmo-3.1-32b-think:free", str "hi", []⟩,
         ⟨str "nvidia/nemotron-3-nano-30b-a3b:free", str "hi", []⟩,
         ⟨str "qwen/qwen3-coder:free", str "hi", []⟩] []) = none := by
    decide
  exact ⟨h1, h2, h3, h4, C4_chairman_failure oracleNoChairman (str "q") [] _ _ _ _ _ h1 h2 h3 h4⟩

end Council

namespace Council

theorem labelChar_toNat_of_le {i : Nat} (h : i ≤ 25) :
    (Char.ofNat (65 + i)).toNat = 65 + i := by
  have hv : (65 + i).isValidChar := by left; omega
  rw [Char.ofNat, dif_pos hv]
  simp [Char.ofNatAux, Char.toNat, UInt32.toNat, BitVec.ofNatLt]

theorem labelChar_toNat_invalid {n : Nat} (hv : ¬n.isValidChar) :
    (Char.ofNat n).toNat = 0 := by
  rw [Char.ofNat, dif_neg hv]
  simp [Char.toNat, UInt32.toNat, BitVec.ofNatLt]

theorem labelStrOf_inj_on {i j : Nat} (hi : i ≤ 25) (hj : j ≤ 25)
    (h : labelStrOf i = labelStrOf j) : i = j := by
  rw [labelStrOf, labelStrOf] at h
  have hc : Char.ofNat (65 + i) = Char.ofNat (65 + j) := by
    have := List.append_cancel_left h
    rw [List.cons.injEq] at this
    exact this.1
  have := congrArg Char.toNat hc
  rw [labelChar_toNat_of_le hi, labelChar_toNat_of_le hj] at this
  omega

theorem label_to_model_enum (s1 : List Stage1Result) :
    label_to_model s1 = s1.enum.map (fun p => (labelStrOf p.1, p.2.model)) := by
  rw [label_to_model, labels, List.zip_map_left, List.map_map, ← List.enum_eq_zip_range]
  rfl

/-- C6: for every non-empty Stage-1 sequence of length at most 26 with
pairwise distinct model identifiers, the anonymizer pairs the i-th entry
(0-based, input order) with the label `"Response " ++ chr(65+i)`, so labels
run in strict alphabetical order matching input order, and the label-to-model
mapping is a bijection: its keys are pairwise distinct and its values are
pairwise distinct. -/
theorem C6_anonymizer_bijection (s1 : List Stage1Result)
    (h26 : s1.length ≤ 26) (hnd : (s1.map (fun r => r.model)).Nodup) :
    (label_to_model s1).length = s1.length ∧
    (∀ i r, s1[i]? = some r →
      (label_to_model s1)[i]? = some (labelStrOf i, r.model)) ∧
    ((label_to_model s1).map Prod.fst).Nodup ∧
    ((label_to_model s1).map Prod.snd).Nodup := by
  refine ⟨?_, ?_, ?_, ?_⟩
  · rw [label_to_model_enum]; simp
  · intro i r hi
    rw [label_to_model_enum, List.getElem?_map, List.getElem?_enum, hi]
    rfl
  · rw [label_to_model_enum, List.map_map,
      show (Prod.fst ∘ fun p : Nat × Stage1Result => (labelStrOf p.1, p.2.model)) =
        (labelStrOf ∘ Prod.fst) from rfl,
      ← List.map_map, List.enum_map_fst]
    refine List.Nodup.map_on ?_ (List.nodup_range s1.length)
    intro x hx y hy hxy
    rw [List.mem_range] at hx hy
    exact labelStrOf_inj_on (by omega) (by omega) hxy
  · rw [label_to_model_enum, List.map_map,
      show (Prod.snd ∘ fun p : Nat × Stage1Result => (labelStrOf p.1, p.2.model)) =
        ((fun r : Stage1Result => r.model) ∘ Prod.snd) from rfl,
      ← List.map_map, List.enum_map_snd]
    exact hnd

/-- Witness for C6: a two-model Stage-1 sequence with distinct models. -/
theorem C6_anonymizer_bijection_witness :
    wStage1Two.length ≤ 26 ∧ (wStage1Two.map (fun r => r.model)).Nodup ∧
    ((label_to_model wStage1Two).length = wStage1Two.length ∧
     (∀ i r, wStage1Two[i]? = some r →
       (label_to_model wStage1Two)[i]? = some (labelStrOf i, r.model)) ∧
     ((label_to_model wStage1Two).map Prod.fst).Nodup ∧
     ((label_to_model wStage1Two).map Prod.snd).Nodup) :=
  ⟨by decide, by decide,
   C6_anonymizer_bijection wStage1Two (by decide) (by decide)⟩

/-- C8 (amended): on invocation failure, or when the model response lacks a
content field, generate_conversation_title returns the fixed fallback title
`"New Conversation"`; on success it strips surrounding whitespace and wrapping
quote characters from the model output, and whenever the stripped title
exceeds 50 characters the result is truncated to exactly 50 characters total
(47 characters of content plus the 3-character ellipsis marker).  Empty or
quote-only output therefore yields the empty title, not the fallback. -/
theorem C8_title_generation (oracle : Oracle) (user_query : Str) :
    (oracle (str "google/gemini-2.5-flash") (titleMessages user_query) = none →
      generate_conversation_title oracle user_query = str "New Conversation") ∧
    (oracle (str "google/gemini-2.5-flash") (titleMessages user_query) = some ⟨none⟩ →
      generate_conversation_title oracle user_query = str "New Conversation") ∧
    (∀ content, oracle (str "google/gemini-2.5-flash") (titleMessages user_query) =
        some ⟨some content⟩ →
      generate_conversation_title oracle user_query =
        (if 50 < (stripQuotes (pyStrip content)).length then
          (stripQuotes (pyStrip content)).take 47 ++ str "..."
        else stripQuotes (pyStrip content))) ∧
    (∀ content, oracle (str "google/gemini-2.5-flash") (titleMessages user_query) =
        some ⟨some content⟩ → 50 < (stripQuotes (pyStrip content)).length →
      (generate_conversation_title oracle user_query).length = 50) := by
  refine ⟨?_, ?_, ?_, ?_⟩
  · intro h; simp only [generate_conversation_title, h]
  · intro h; simp only [generate_conversation_title, h]; decide
  · intro content h; simp only [generate_conversation_title, h, Option.getD_some]
  · intro content h htl
    simp only [generate_conversation_title, h, Option.getD_some, if_pos htl]
    rw [List.length_append, List.length_take]
    have : (str "...").length = 3 := rfl
    rw [this]
    omega

/-- Witness for C8: failure, missing content, a short quoted title, and a
long title truncated to exactly 50 characters. -/
theorem C8_title_generation_witness :
    (oracleAllFail (str "google/gemini-2.5-flash") (titleMessages (str "q")) = none ∧
     generate_conversation_title oracleAllFail (str "q") = str "New Conversation") ∧
    (oracleNoContent (str "google/gemini-2.5-flash") (titleMessages (str "q")) = some ⟨none⟩ ∧
     generate_conversation_title oracleNoContent (str "q") = str "New Conversation") ∧
    (oracleShortTitle (str "google/gemini-2.5-flash") (titleMessages (str "q")) =
       some ⟨some (str "\x27Hello\x27")⟩ ∧
     generate_conversation_title oracleShortTitle (str "q") = str "Hello") ∧
    (oracleLongTitle (str "google/gemini-2.5-flash") (titleMessages (str "q")) =
       some ⟨some (str "  \"A very long title that definitely exceeds the fifty character limit imposed\"  ")⟩ ∧
     50 < (stripQuotes (pyStrip (str "  \"A very long title that definitely exceeds the fifty character limit imposed\"  "))).length ∧
     (generate_conversation_title oracleLongTitle (str "q")).length = 50) := by
  refine ⟨⟨rfl, (C8_title_generation oracleAllFail (str "q")).1 rfl⟩,
    ⟨rfl, (C8_title_generation oracleNoContent (str "q")).2.1 rfl⟩,
    ⟨rfl, ?_⟩, ⟨rfl, by decide, ?_⟩⟩
  · rw [(C8_title_generation oracleShortTitle (str "q")).2.2.1 (str "\x27Hello\x27") rfl]
    decide
  · exact (C8_title_generation oracleLongTitle (str "q")).2.2.2
      (str "  \"A very long title that definitely exceeds the fifty character limit imposed\"  ")
      rfl (by decide)

/-- Counterexample to C8 as stated: on empty model output the code strips the
empty string and returns it unchanged — the empty title — rather than the
fixed fallback title demanded by the claim. -/
theorem C8_counterexample :
    generate_conversation_title oracleEmptyContent (str "q") = [] ∧
    str "New Conversation" ≠ ([] : Str) :=
  ⟨by decide, by decide⟩

theorem zipResp_congr : ∀ (ls : List Char) (s1 s1' : List Stage1Result),
    s1.map (fun r => r.response) = s1'.map (fun r => r.response) →
    (ls.zip s1).map (fun p => str "Response " ++ [p.1] ++ str ":\n" ++ p.2.response) =
      (ls.zip s1').map (fun p => str "Response " ++ [p.1] ++ str ":\n" ++ p.2.response) := by
  intro ls
  induction ls with
  | nil => intro _ _ _; rfl
  | cons c cs ih =>
    intro s1 s1' h
    cases s1 with
    | nil =>
      cases s1' with
      | nil => rfl
      | cons b bs => cases h
    | cons a as =>
      cases s1' with
      | nil => cases h
      | cons b bs =>
        rw [List.map_cons, List.map_cons, List.cons.injEq] at h
        rw [List.zip_cons_cons, List.zip_cons_cons, List.map_cons, List.map_cons,
          h.1, ih as bs h.2]

theorem responses_text_congr (s1 s1' : List Stage1Result)
    (h : s1.map (fun r => r.response) = s1'.map (fun r => r.response)) :
    responses_text s1 = responses_text s1' := by
  have hlen : s1.length = s1'.length := by
    have := congrArg List.length h
    simpa using this
  rw [responses_text, responses_text, hlen, zipResp_congr _ s1 s1' h]

/-- C9: the Stage-2 ranking prompt is independent of the model identities
behind the responses — for any two Stage-1 sequences with identical response
texts position by position (hence equal length), and the same user query and
conversation history, the ranking prompt is character-for-character the same;
each response body is prefixed only by its anonymized label. -/
theorem C9_ranking_prompt_blind (user_query : Str) (conversation_history : List Message)
    (s1 s1' : List Stage1Result)
    (h : s1.map (fun r => r.response) = s1'.map (fun r => r.response)) :
    build_ranking_prompt user_query s1 conversation_history =
      build_ranking_prompt user_query s1' conversation_history := by
  rw [build_ranking_prompt, build_ranking_prompt, responses_text_congr s1 s1' h]

/-- Witness for C9: two Stage-1 sequences with the same responses under
different model identifiers produce the identical ranking prompt. -/
theorem C9_ranking_prompt_blind_witness :
    wStage1Two.map (fun r => r.response) = wStage1TwoAlt.map (fun r => r.response) ∧
    build_ranking_prompt (str "q") wStage1Two [] =
      build_ranking_prompt (str "q") wStage1TwoAlt [] :=
  ⟨by decide, C9_ranking_prompt_blind (str "q") [] wStage1Two wStage1TwoAlt (by decide)⟩

end Council

namespace Council

theorem lookup_cons {β : Type} (k : Str) (v : β) (es : List (Str × β)) (m : Str) :
    ((k, v) :: es).lookup m = if m = k then some v else es.lookup m := by
  by_cases h : m = k
  · rw [List.lookup, if_pos h, beq_iff_eq.mpr h]
  · rw [List.lookup, if_neg h]
    have : (m == k) = false := by
      cases hbeq : m == k
      · rfl
      · exact absurd (eq_of_beq hbeq) h
    rw [this]

theorem mem_of_lookup_eq_some {β : Type} :
    ∀ {l : List (Str × β)} {k : Str} {v : β}, l.lookup k = some v → (k, v) ∈ l := by
  intro l
  induction l with
  | nil => intro k v h; cases h
  | cons p rest ih =>
    intro k v h
    obtain ⟨k2, v2⟩ := p
    rw [lookup_cons] at h
    split at h
    case isTrue heq =>
      rw [Option.some.injEq] at h
      rw [heq, h]
      exact List.mem_cons_self _ _
    case isFalse => exact List.mem_cons_of_mem _ (ih h)

theorem addPosition_cons (k : Str) (ps : List Nat) (rest : List (Str × List Nat))
    (mn : Str) (pos : Nat) :
    addPosition ((k, ps) :: rest) mn pos =
      if k = mn then (k, ps ++ [pos]) :: rest
      else (k, ps) :: addPosition rest mn pos := by
  by_cases h : k = mn
  · rw [addPosition, if_pos h, beq_iff_eq.mpr h]; rfl
  · have hb : (k == mn) = false := by
      cases hbeq : k == mn
      · rfl
      · exact absurd (eq_of_beq hbeq) h
    rw [addPosition, if_neg h, hb]; rfl

theorem lookup_addPosition (mp : List (Str × List Nat)) (mn : Str) (pos : Nat) (m : Str) :
    (addPosition mp mn pos).lookup m =
      if m = mn then some ((mp.lookup mn).getD [] ++ [pos]) else mp.lookup m := by
  induction mp with
  | nil =>
    by_cases h : m = mn
    · rw [addPosition, lookup_cons, if_pos h, if_pos h, List.lookup_nil]; rfl
    · rw [addPosition, lookup_cons, if_neg h, if_neg h, List.lookup_nil]
  | cons kv rest ih =>
    obtain ⟨k, ps⟩ := kv
    rw [addPosition_cons]
    by_cases hk : k = mn
    · subst hk
      rw [if_pos rfl]
      simp only [lookup_cons]
      by_cases hm : m = k <;> simp [hm]
    · rw [if_neg hk]
      simp only [lookup_cons, ih]
      by_cases hm : m = k
      · by_cases hmn : m = mn
        · exact absurd (hm.symm.trans hmn) hk
        · simp [hm, hmn, hk]
      · by_cases hmn : m = mn
        · simp [hm, hmn, Ne.symm hk]
        · simp [hm, hmn]

theorem mem_keys_addPosition : ∀ (mp : List (Str × List Nat)) (mn : Str) (pos : Nat) (x : Str),
    x ∈ (addPosition mp mn pos).map Prod.fst ↔ x ∈ mp.map Prod.fst ∨ x = mn := by
  intro mp
  induction mp with
  | nil => intro mn pos x; simp [addPosition]
  | cons kv rest ih =>
    intro mn pos x
    obtain ⟨k, ps⟩ := kv
    by_cases hk : k = mn
    · subst hk
      rw [addPosition_cons, if_pos rfl]
      simp only [List.map_cons, List.mem_cons]
      tauto
    · rw [addPosition_cons, if_neg hk]
      simp only [List.map_cons, List.mem_cons, ih mn pos x]
      tauto

theorem nodup_keys_addPosition (mp : List (Str × List Nat)) (mn : Str) (pos : Nat)
    (h : (mp.map Prod.fst).Nodup) : ((addPosition mp mn pos).map Prod.fst).Nodup := by
  induction mp with
  | nil => simp [addPosition]
  | cons kv rest ih =>
    obtain ⟨k, ps⟩ := kv
    rw [List.map_cons, List.nodup_cons] at h
    rw [addPosition_cons]
    by_cases hk : k = mn
    · rw [if_pos hk, List.map_cons, List.nodup_cons]
      exact ⟨h.1, h.2⟩
    · rw [if_neg hk, List.map_cons, List.nodup_cons]
      refine ⟨?_, ih h.2⟩
      intro hmem
      rw [mem_keys_addPosition] at hmem
      rcases hmem with hmem | hmem
      · exact h.1 hmem
      · exact hk hmem

end Council

namespace Council

theorem lookup_foldl_step (ltm : List (Str × Str)) :
    ∀ (pls : List (Nat × Str)) (mp : List (Str × List Nat)) (m : Str),
    (pls.foldl (fun mp pl =>
        match ltm.lookup pl.2 with
        | some model_name => addPosition mp model_name pl.1
        | none => mp) mp).lookup m =
      (if pls.filterMap (fun pl =>
          if ltm.lookup pl.2 == some m then some pl.1 else none) = []
       then mp.lookup m
       else some ((mp.lookup m).getD [] ++
         pls.filterMap (fun pl =>
           if ltm.lookup pl.2 == some m then some pl.1 else none))) := by
  intro pls
  induction pls with
  | nil => intro mp m; simp
  | cons pl rest ih =>
    intro mp m
    rw [List.foldl_cons, List.filterMap_cons]
    rcases hlk : ltm.lookup pl.2 with _ | mn
    · exact ih mp m
    · by_cases hm : mn = m
      · subst hm
        rw [show ((some mn == some mn) : Bool) = true from by simp]
        show (List.foldl _ (addPosition mp mn pl.1) rest).lookup mn =
          some (((mp.lookup mn).getD []) ++ pl.1 :: List.filterMap _ rest)
        rw [ih (addPosition mp mn pl.1) mn]
        by_cases hrest : List.filterMap (fun pl =>
            if ltm.lookup pl.2 == some mn then some pl.1 else none) rest = []
        · rw [if_pos hrest, lookup_addPosition, if_pos rfl, hrest]
        · rw [if_neg hrest, lookup_addPosition, if_pos rfl]
          simp
      · rw [show ((some mn == some m) : Bool) = false from by simp [hm]]
        show (List.foldl _ (addPosition mp mn pl.1) rest).lookup m =
          if List.filterMap _ rest = [] then mp.lookup m
          else some ((mp.lookup m).getD [] ++ List.filterMap _ rest)
        rw [ih (addPosition mp mn pl.1) m, lookup_addPosition]
        simp only [if_neg (show ¬m = mn from fun h => hm h.symm)]

theorem lookup_recordReviewer (ltm : List (Str × Str)) (mp : List (Str × List Nat))
    (r : Stage2Result) (m : Str) :
    (recordReviewer ltm mp r).lookup m =
      if reviewerPositionsFor ltm m r = [] then mp.lookup m
      else some ((mp.lookup m).getD [] ++ reviewerPositionsFor ltm m r) := by
  rw [recordReviewer, reviewerPositionsFor]
  exact lookup_foldl_step ltm _ mp m

theorem lookup_fold_reviewers (ltm : List (Str × Str)) :
    ∀ (s2 : List Stage2Result) (mp : List (Str × List Nat)) (m : Str),
    (s2.foldl (recordReviewer ltm) mp).lookup m =
      if (s2.map (reviewerPositionsFor ltm m)).flatten = [] then mp.lookup m
      else some ((mp.lookup m).getD [] ++ (s2.map (reviewerPositionsFor ltm m)).flatten) := by
  intro s2
  induction s2 with
  | nil => intro mp m; simp
  | cons r rs ih =>
    intro mp m
    rw [List.foldl_cons, List.map_cons, List.flatten_cons,
      ih (recordReviewer ltm mp r) m, lookup_recordReviewer]
    by_cases h1 : reviewerPositionsFor ltm m r = []
    · rw [if_pos h1, h1, List.nil_append]
    · by_cases h2 : (rs.map (reviewerPositionsFor ltm m)).flatten = []
      · rw [if_pos h2, if_neg h1, h2, List.append_nil,
          if_neg (by simp [h1])]
      · rw [if_neg h2, if_neg h1, if_neg (by simp [h1])]
        simp

theorem lookup_model_positions (ltm : List (Str × Str)) (s2 : List Stage2Result) (m : Str) :
    (s2.foldl (recordReviewer ltm) []).lookup m =
      if recordedPositions s2 ltm m = [] then none
      else some (recordedPositions s2 ltm m) := by
  rw [recordedPositions, lookup_fold_reviewers, List.lookup_nil]
  by_cases h : (s2.map (reviewerPositionsFor ltm m)).flatten = []
  · rw [if_pos h, if_pos h]
  · rw [if_neg h, if_neg h]
    rfl

theorem nodup_keys_foldl_step (ltm : List (Str × Str)) :
    ∀ (pls : List (Nat × Str)) (mp : List (Str × List Nat)),
    (mp.map Prod.fst).Nodup →
    ((pls.foldl (fun mp pl =>
        match ltm.lookup pl.2 with
        | some model_name => addPosition mp model_name pl.1
        | none => mp) mp).map Prod.fst).Nodup := by
  intro pls
  induction pls with
  | nil => intro mp h; exact h
  | cons pl rest ih =>
    intro mp h
    rw [List.foldl_cons]
    rcases hlk : ltm.lookup pl.2 with _ | mn
    · exact ih mp h
    · exact ih _ (nodup_keys_addPosition mp mn pl.1 h)

theorem nodup_keys_fold_reviewers (ltm : List (Str × Str)) :
    ∀ (s2 : List Stage2Result) (mp : List (Str × List Nat)),
    (mp.map Prod.fst).Nodup →
    ((s2.foldl (recordReviewer ltm) mp).map Prod.fst).Nodup := by
  intro s2
  induction s2 with
  | nil => intro mp h; exact h
  | cons r rs ih =>
    intro mp h
    rw [List.foldl_cons]
    exact ih _ (nodup_keys_foldl_step ltm _ mp h)

end Council

namespace Council

theorem filter_eq_lookup (mp : List (Str × List Nat)) (h : (mp.map Prod.fst).Nodup)
    (m : Str) :
    mp.filter (fun p => p.1 == m) =
      (match mp.lookup m with
       | some ps => [(m, ps)]
       | none => []) := by
  induction mp with
  | nil => rfl
  | cons kv rest ih =>
    obtain ⟨k, ps⟩ := kv
    rw [List.map_cons, List.nodup_cons] at h
    rw [List.filter_cons, lookup_cons]
    by_cases hk : m = k
    · subst hk
      rw [if_pos rfl]
      simp only [beq_self_eq_true, if_pos]
      have hnil : rest.filter (fun p => p.1 == m) = [] := by
        rw [List.filter_eq_nil_iff]
        intro p hp hbeq
        refine h.1 ?_
        rw [← eq_of_beq hbeq]
        have hmm := List.mem_map_of_mem Prod.fst hp
        exact hmm
      rw [hnil]
    · rw [if_neg hk]
      have hb : (k == m) = false := by
        cases hbeq : k == m
        · rfl
        · exact absurd (eq_of_beq hbeq).symm hk
      simp only [hb, Bool.false_eq_true, if_false]
      exact ih h.2

theorem filter_filterMap_agg (mp : List (Str × List Nat)) (m : Str) :
    (mp.filterMap (fun p =>
        if p.2.isEmpty then none
        else some (⟨p.1, round2 (roundToDouble ((p.2.sum : ℚ) / (p.2.length : ℚ))),
          p.2.length⟩ : AggregateEntry))).filter (fun e => e.model == m) =
    (mp.filter (fun p => p.1 == m)).filterMap (fun p =>
        if p.2.isEmpty then none
        else some (⟨p.1, round2 (roundToDouble ((p.2.sum : ℚ) / (p.2.length : ℚ))),
          p.2.length⟩ : AggregateEntry)) := by
  induction mp with
  | nil => rfl
  | cons p rest ih =>
    rw [List.filterMap_cons, List.filter_cons]
    by_cases hemp : p.2.isEmpty = true
    · rw [if_pos hemp]
      by_cases hk : (p.1 == m) = true
      · rw [if_pos hk, List.filterMap_cons, if_pos hemp]
        exact ih
      · rw [if_neg hk]
        exact ih
    · rw [if_neg hemp, List.filter_cons]
      by_cases hk : (p.1 == m) = true
      · rw [if_pos hk, if_pos hk, List.filterMap_cons, if_neg hemp, ih]
      · rw [if_neg hk, if_neg hk]
        exact ih

theorem insertByRank_perm (e : AggregateEntry) :
    ∀ l : List AggregateEntry, List.Perm (insertByRank e l) (e :: l) := by
  intro l
  induction l with
  | nil => exact List.Perm.refl _
  | cons x xs ih =>
    rw [insertByRank]
    by_cases h : e.average_rank < x.average_rank
    · rw [if_pos h]
    · rw [if_neg h]
      exact (ih.cons x).trans (List.Perm.swap e x xs)

theorem pySortByRank_go : ∀ (l acc : List AggregateEntry),
    List.Perm (l.foldl (fun acc e => insertByRank e acc) acc) (acc ++ l) := by
  intro l
  induction l with
  | nil => intro acc; rw [List.append_nil]; exact List.Perm.refl acc
  | cons e es ih =>
    intro acc
    rw [List.foldl_cons]
    refine (ih (insertByRank e acc)).trans ?_
    refine (((insertByRank_perm e acc).append_right es).trans ?_)
    exact List.perm_middle.symm

theorem pySortByRank_perm (l : List AggregateEntry) :
    List.Perm (pySortByRank l) l := by
  rw [pySortByRank]
  exact pySortByRank_go l []

/-- C2 (amended): calculate_aggregate_rankings assigns each label of each
reviewer's parsed ranking (the parse of the raw ranking text) its 1-based
position, resolves the label through the label map (skipping labels not
present), and produces, for each model with at least one recorded position,
exactly one entry whose average_rank is the Python float mean of its recorded
positions — the exact mean rounded to the nearest binary64 double, then
rounded to 2 decimal places by Python round — and whose rankings_count is the
number of recorded positions — one per occurrence of the model's label across
all reviewers, equal to the number of reviewers only when no reviewer repeats
a label; models with zero recorded positions are omitted, not zero-filled.
The hypothesis bounds every parsed ranking far below the double overflow
threshold: past it Python's int/int division raises OverflowError, which the
total embedding does not model. -/
theorem C2_aggregate_rankings (stage2_results : List Stage2Result)
    (ltm : List (Str × Str)) (m : Str)
    (_hov : ∀ r ∈ stage2_results, (parse_ranking_from_text r.ranking).length < 2 ^ 1023) :
    (calculate_aggregate_rankings stage2_results ltm).filter (fun e => e.model == m) =
      (if recordedPositions stage2_results ltm m = [] then []
       else [⟨m, round2 (roundToDouble
               (((recordedPositions stage2_results ltm m).sum : ℚ) /
                ((recordedPositions stage2_results ltm m).length : ℚ))),
             (recordedPositions stage2_results ltm m).length⟩]) := by
  have hperm := (pySortByRank_perm ((stage2_results.foldl (recordReviewer ltm) []).filterMap
    (fun p => if p.2.isEmpty then none
      else some (⟨p.1, round2 (roundToDouble ((p.2.sum : ℚ) / (p.2.length : ℚ))),
        p.2.length⟩ : AggregateEntry)))).filter (fun e => e.model == m)
  rw [filter_filterMap_agg,
    filter_eq_lookup _ (nodup_keys_fold_reviewers ltm stage2_results [] (by simp)) m,
    lookup_model_positions] at hperm
  by_cases h : recordedPositions stage2_results ltm m = []
  · rw [if_pos h] at hperm
    rw [if_pos h]
    exact hperm.eq_nil
  · rw [if_neg h] at hperm
    rw [if_neg h]
    have hne : (recordedPositions stage2_results ltm m).isEmpty = false := by
      cases hrp : recordedPositions stage2_results ltm m with
      | nil => exact absurd hrp h
      | cons a as => rfl
    rw [List.filterMap_cons, if_neg (by rw [hne]; exact Bool.false_ne_true),
      List.filterMap_nil] at hperm
    exact List.perm_singleton.mp hperm

set_option maxRecDepth 40000 in
theorem C2_aggregate_rankings_witness :
    (∀ r ∈ wStage2One, (parse_ranking_from_text r.ranking).length < 2 ^ 1023) ∧
    (calculate_aggregate_rankings wStage2One
        [(str "Response A", str "m1")]).filter (fun e => e.model == str "m1") =
      (if recordedPositions wStage2One [(str "Response A", str "m1")] (str "m1") = [] then []
       else [⟨str "m1", round2 (roundToDouble
               (((recordedPositions wStage2One [(str "Response A", str "m1")] (str "m1")).sum : ℚ) /
                ((recordedPositions wStage2One [(str "Response A", str "m1")] (str "m1")).length : ℚ))),
             (recordedPositions wStage2One [(str "Response A", str "m1")] (str "m1")).length⟩]) :=
  ⟨by decide, C2_aggregate_rankings wStage2One [(str "Response A", str "m1")] (str "m1") (by decide)⟩

/-- Counterexample to C2 as stated: one reviewer whose parsed ranking repeats
`"Response A"` gives model `m1` two recorded positions, so `rankings_count` is
2 while only 1 reviewer ranked the model (the rational `average_rank` field is
projected away because kernel reduction of `Rat` arithmetic is unavailable;
the refuted conjunct concerns `rankings_count` only). -/
theorem C2_counterexample :
    (calculate_aggregate_rankings
      [⟨str "r1", str "FINAL RANKING: 1. Response A 2. Response A",
        [str "Response A", str "Response A"]⟩]
      [(str "Response A", str "m1")]).map (fun e => (e.model, e.rankings_count)) =
      [(str "m1", 2)] ∧
    ([⟨str "r1", str "FINAL RANKING: 1. Response A 2. Response A",
        [str "Response A", str "Response A"]⟩] : List Stage2Result).length = 1 :=
  ⟨by decide, rfl⟩

end Council

namespace Council

theorem charOfNat_toNat_of_valid {n : Nat} (hv : n.isValidChar) :
    (Char.ofNat n).toNat = n := by
  rw [Char.ofNat, dif_pos hv]
  simp [Char.ofNatAux, Char.toNat, UInt32.toNat, BitVec.ofNatLt]

theorem label_upper_lt26 {j : Nat} {c : Char} (hc : Char.ofNat (65 + j) = c)
    (hup : isUpper c = true) : j < 26 := by
  subst hc
  simp only [isUpper, Bool.and_eq_true, decide_eq_true_eq] at hup
  by_cases hv : (65 + j).isValidChar
  · rw [charOfNat_toNat_of_valid hv] at hup
    omega
  · rw [labelChar_toNat_invalid hv] at hup
    omega

theorem mem_enum1_snd {α : Type} {pl : Nat × α} {l : List α} (h : pl ∈ enum1 l) :
    pl.2 ∈ l := by
  rw [enum1, List.mem_map] at h
  obtain ⟨q, hq, heq⟩ := h
  have hg := List.mem_enum_iff_getElem?.mp hq
  have : pl.2 = q.2 := by rw [← heq]
  rw [this]
  exact List.mem_iff_getElem?.mpr ⟨q.1, hg⟩

theorem keys_inner_sound (ltm : List (Str × Str)) :
    ∀ (pls : List (Nat × Str)) (mp : List (Str × List Nat)) (x : Str),
    x ∈ (pls.foldl (fun mp pl =>
        match ltm.lookup pl.2 with
        | some model_name => addPosition mp model_name pl.1
        | none => mp) mp).map Prod.fst →
    x ∈ mp.map Prod.fst ∨ ∃ pl ∈ pls, ltm.lookup pl.2 = some x := by
  intro pls
  induction pls with
  | nil => intro mp x h; exact Or.inl h
  | cons pl rest ih =>
    intro mp x h
    rw [List.foldl_cons] at h
    rcases hlk : ltm.lookup pl.2 with _ | mn
    · rw [hlk] at h
      rcases ih mp x h with h2 | ⟨pl2, hpl2, hl2⟩
      · exact Or.inl h2
      · exact Or.inr ⟨pl2, List.mem_cons_of_mem pl hpl2, hl2⟩
    · rw [hlk] at h
      rcases ih (addPosition mp mn pl.1) x h with h2 | ⟨pl2, hpl2, hl2⟩
      · rw [mem_keys_addPosition] at h2
        rcases h2 with h2 | h2
        · exact Or.inl h2
        · exact Or.inr ⟨pl, List.mem_cons_self pl rest, by rw [hlk, h2]⟩
      · exact Or.inr ⟨pl2, List.mem_cons_of_mem pl hpl2, hl2⟩

theorem keys_reviewers_sound (ltm : List (Str × Str)) :
    ∀ (s2 : List Stage2Result) (mp : List (Str × List Nat)) (x : Str),
    x ∈ (s2.foldl (recordReviewer ltm) mp).map Prod.fst →
    x ∈ mp.map Prod.fst ∨ ∃ r2 ∈ s2, ∃ label ∈ parse_ranking_from_text r2.ranking,
      ltm.lookup label = some x := by
  intro s2
  induction s2 with
  | nil => intro mp x h; exact Or.inl h
  | cons r rs ih =>
    intro mp x h
    rw [List.foldl_cons] at h
    rcases ih (recordReviewer ltm mp r) x h with h2 | ⟨r2, hr2, label, hlm, hlk⟩
    · rw [recordReviewer] at h2
      rcases keys_inner_sound ltm _ mp x h2 with h3 | ⟨pl, hpl, hlk⟩
      · exact Or.inl h3
      · exact Or.inr ⟨r, List.mem_cons_self r rs, pl.2, mem_enum1_snd hpl, hlk⟩
    · exact Or.inr ⟨r2, List.mem_cons_of_mem r hr2, label, hlm, hlk⟩

theorem lookup_label_to_model {s1 : List Stage1Result} {k v : Str}
    (h : (label_to_model s1).lookup k = some v) :
    ∃ j rj, s1[j]? = some rj ∧ v = rj.model ∧ k = labelStrOf j := by
  have hmem := mem_of_lookup_eq_some h
  rw [label_to_model_enum, List.mem_map] at hmem
  obtain ⟨p, hp, heq⟩ := hmem
  rw [Prod.mk.injEq] at heq
  exact ⟨p.1, p.2, List.mem_enum_iff_getElem?.mp hp, heq.2.symm, heq.1.symm⟩

theorem mem_aggregate_key {mp : List (Str × List Nat)} {e : AggregateEntry}
    (h : e ∈ mp.filterMap (fun p =>
        if p.2.isEmpty then none
        else some (⟨p.1, round2 (roundToDouble ((p.2.sum : ℚ) / (p.2.length : ℚ))),
          p.2.length⟩ : AggregateEntry))) :
    ∃ p ∈ mp, e.model = p.1 := by
  rw [List.mem_filterMap] at h
  obtain ⟨p, hp, hpe⟩ := h
  split at hpe
  · cases hpe
  · rw [Option.some.injEq] at hpe
    exact ⟨p, hp, by rw [← hpe]⟩

/-- C10: labels generated for the entries at index 26 and beyond use
`chr(65+i)` past `Z` and so never have the form `"Response "` plus a single
uppercase letter; `parse_ranking_from_text` only ever returns strings of that
form; therefore a model appearing only at a position beyond the 26th (its
identifier distinct from every model among the first 26) can never receive a
recorded position and never appears in the aggregate rankings, for every
Stage-2 result sequence whatsoever. -/
theorem C10_beyond_26 (s1 : List Stage1Result) (s2 : List Stage2Result)
    (i : Nat) (r : Stage1Result) (h26 : 26 ≤ i) (hi : s1[i]? = some r)
    (hdist : ∀ j rj, j < 26 → s1[j]? = some rj → rj.model ≠ r.model) :
    (∀ c, isUpper c = true → labelStrOf i ≠ str "Response " ++ [c]) ∧
    (∀ text t, t ∈ parse_ranking_from_text text →
      ∃ c, isUpper c = true ∧ t = str "Response " ++ [c]) ∧
    (∀ e ∈ calculate_aggregate_rankings s2 (label_to_model s1),
      e.model ≠ r.model) := by
  refine ⟨?_, parse_shape, ?_⟩
  · intro c hup heq
    rw [labelStrOf] at heq
    have hc : Char.ofNat (65 + i) = c := by
      have h2 := List.append_cancel_left heq
      rw [List.cons.injEq] at h2
      exact h2.1
    have := label_upper_lt26 hc hup
    omega
  · intro e he
    simp only [calculate_aggregate_rankings] at he
    have hmem := (pySortByRank_perm _).mem_iff.mp he
    obtain ⟨p, hp, hem⟩ := mem_aggregate_key hmem
    have hkey : p.1 ∈ ((s2.foldl (recordReviewer (label_to_model s1)) []).map Prod.fst) :=
      List.mem_map_of_mem Prod.fst hp
    rcases keys_reviewers_sound (label_to_model s1) s2 [] p.1 hkey with habs |
      ⟨r2, _, label, hlabmem, hlook⟩
    · cases habs
    · obtain ⟨c, hup, hlab⟩ := parse_shape _ _ hlabmem
      rw [hlab] at hlook
      obtain ⟨j, rj, hj, hv, hk⟩ := lookup_label_to_model hlook
      have hcj : Char.ofNat (65 + j) = c := by
        rw [labelStrOf] at hk
        have h2 := List.append_cancel_left hk
        rw [List.cons.injEq] at h2
        exact h2.1.symm
      have hj26 : j < 26 := label_upper_lt26 hcj hup
      intro hcontra
      apply hdist j rj hj26 hj
      rw [← hv, ← hem, hcontra]

/-- Witness for C10: 27 Stage-1 entries with pairwise distinct one-character
model identifiers and a reviewer that ranks `Response A`; the 27th model
(identifier `chr 123`) never appears in the aggregate. -/
theorem C10_beyond_26_witness :
    26 ≤ 26 ∧
    wStage1Big[26]? = some ⟨[Char.ofNat 123], []⟩ ∧
    (∀ j rj, j < 26 → wStage1Big[j]? = some rj → rj.model ≠ [Char.ofNat 123]) ∧
    ((∀ c, isUpper c = true → labelStrOf 26 ≠ str "Response " ++ [c]) ∧
     (∀ text t, t ∈ parse_ranking_from_text text →
       ∃ c, isUpper c = true ∧ t = str "Response " ++ [c]) ∧
     (∀ e ∈ calculate_aggregate_rankings wStage2One (label_to_model wStage1Big),
       e.model ≠ [Char.ofNat 123])) := by
  have h1 : wStage1Big[26]? = some (⟨[Char.ofNat 123], []⟩ : Stage1Result) := by decide
  have h2 : ∀ j, j < 26 →
      (wStage1Big[j]?.map (fun rj => rj.model)) ≠ some [Char.ofNat 123] := by decide
  have h3 : ∀ j rj, j < 26 → wStage1Big[j]? = some rj → rj.model ≠ [Char.ofNat 123] := by
    intro j rj hj hget hmodel
    exact h2 j hj (by rw [hget]; simp [hmodel])
  exact ⟨Nat.le_refl 26, h1, h3,
    C10_beyond_26 wStage1Big wStage2One 26 ⟨[Char.ofNat 123], []⟩ (Nat.le_refl 26) h1 h3⟩

end Council
